import Mathlib

/-!  Verification of the emf repository's codemod scripts.

The repository consists of Python scripts under emf-ui/app that rewrite test
files by regular-expression substitution.  File contents are modelled as
`List Char`; each `re.sub` call is modelled as a left-to-right scanner
(`subScan`) driven by a deterministic matcher that mirrors the concrete
regular expression (all the patterns in the scripts are literal-anchored, so
Python's leftmost, greedy-with-backtracking semantics collapses to a
deterministic test at each position).  The file system is modelled as a
partial map from paths to contents, and Python exceptions as `Except`.
-/

namespace Emf

/-- Python regex WHITESPACE class for str patterns, and the character set
stripped by str.lstrip(): ASCII whitespace plus the Unicode space
characters Python treats as whitespace. -/
def isPySpace (c : Char) : Bool :=
  c == ' ' || c == '\t' || c == '\n' || c == '\r' || c == '\x0b' || c == '\x0c' ||
  c == '\x1c' || c == '\x1d' || c == '\x1e' || c == '\x1f' || c == '\x85' || c == '\xa0' ||
  c == '\u1680' || ('\u2000' ≤ c && c ≤ '\u200a') || c == '\u2028' || c == '\u2029' ||
  c == '\u202f' || c == '\u205f' || c == '\u3000'

/-- Character class [a-zA-Z_] (first character of the identifier group in
fix_mock_responses' patterns). -/
def isIdStart (c : Char) : Bool := c.isAlpha || c == '_'

/-- Character class [a-zA-Z0-9_] (continuation characters of the identifier
group in fix_mock_responses' patterns). -/
def isIdChar (c : Char) : Bool := c.isAlphanum || c == '_'

/-- Fuelled left-to-right substitution scanner.  At each position the matcher
either reports a match, giving the replacement text and the number of
characters consumed (the scan resumes after the consumed text, as re.sub
and str.replace do), or the character is copied and the scan moves on by
one.  Fuel bounds the recursion; `subScan` supplies adequate fuel. -/
def subScanF (m : List Char → Option (List Char × Nat)) : Nat → List Char → List Char
  | 0, _ => []
  | _ + 1, [] => []
  | n + 1, c :: cs =>
    match m (c :: cs) with
    | some (rep, k) => rep ++ subScanF m n (List.drop (max k 1) (c :: cs))
    | none => c :: subScanF m n cs

/-- Left-to-right substitution scanner with adequate fuel; models a single
re.sub (or str.replace) pass whose matcher is `m`. -/
def subScan (m : List Char → Option (List Char × Nat)) (l : List Char) : List Char :=
  subScanF m l.length l

theorem subScanF_fuel (m : List Char → Option (List Char × Nat)) :
    ∀ n n' l, l.length ≤ n → l.length ≤ n' → subScanF m n l = subScanF m n' l := by
  intro n
  induction n with
  | zero =>
    intro n' l hl _
    have : l = [] := List.length_eq_zero.mp (Nat.le_zero.mp hl)
    subst this
    cases n' <;> rfl
  | succ n ih =>
    intro n' l hl hl'
    cases l with
    | nil => cases n' <;> rfl
    | cons c cs =>
      cases n' with
      | zero => exact absurd hl' (by simp)
      | succ n' =>
        have hcs : cs.length + 1 ≤ n + 1 := hl
        have hcs' : cs.length + 1 ≤ n' + 1 := hl'
        show subScanF m (n+1) (c :: cs) = subScanF m (n'+1) (c :: cs)
        rw [subScanF, subScanF]
        cases hm : m (c :: cs) with
        | none =>
          show c :: subScanF m n cs = c :: subScanF m n' cs
          rw [ih n' cs (by omega) (by omega)]
        | some rk =>
          obtain ⟨rep, k⟩ := rk
          show rep ++ subScanF m n (List.drop (max k 1) (c :: cs))
              = rep ++ subScanF m n' (List.drop (max k 1) (c :: cs))
          have hlen : (List.drop (max k 1) (c :: cs)).length ≤ cs.length := by
            rw [List.length_drop]
            have h1 : 1 ≤ max k 1 := Nat.le_max_right k 1
            have h2 : (c :: cs).length = cs.length + 1 := rfl
            omega
          rw [ih n' _ (by omega) (by omega)]

theorem subScan_nil (m : List Char → Option (List Char × Nat)) : subScan m [] = [] := rfl

theorem subScan_cons_none (m : List Char → Option (List Char × Nat)) (c : Char)
    (cs : List Char) (h : m (c :: cs) = none) :
    subScan m (c :: cs) = c :: subScan m cs := by
  show subScanF m (cs.length + 1) (c :: cs) = c :: subScanF m cs.length cs
  rw [subScanF, h]

theorem subScan_cons_some (m : List Char → Option (List Char × Nat)) (c : Char)
    (cs : List Char) (rep : List Char) (k : Nat) (h : m (c :: cs) = some (rep, k)) :
    subScan m (c :: cs) = rep ++ subScan m (List.drop (max k 1) (c :: cs)) := by
  have e1 : subScanF m (cs.length + 1) (c :: cs)
      = rep ++ subScanF m cs.length (List.drop (max k 1) (c :: cs)) := by
    rw [subScanF, h]
  have e2 : subScanF m cs.length (List.drop (max k 1) (c :: cs))
      = subScanF m (List.drop (max k 1) (c :: cs)).length (List.drop (max k 1) (c :: cs)) := by
    apply subScanF_fuel
    · rw [List.length_drop]
      have h1 : 1 ≤ max k 1 := Nat.le_max_right k 1
      have h2 : (c :: cs).length = cs.length + 1 := rfl
      omega
    · exact Nat.le_refl _
  show subScanF m (cs.length + 1) (c :: cs) = _
  rw [e1, e2]
  rfl

/-- Matcher for a single literal occurrence: models one step of Python's
str.replace(needle, rep). -/
def replMatch (needle rep : List Char) (s : List Char) : Option (List Char × Nat) :=
  if needle.isPrefixOf s then some (rep, needle.length) else none

/-- Python str.replace(needle, rep): replaces every non-overlapping
occurrence, scanning left to right and resuming after each replacement. -/
def replaceAll (needle rep l : List Char) : List Char :=
  subScan (replMatch needle rep) l

/-- Python substring test (needle in hay) as an executable Boolean. -/
def isSub (needle : List Char) : List Char → Bool
  | [] => needle.isEmpty
  | c :: t => needle.isPrefixOf (c :: t) || isSub needle t

/-! ### Embedding of fix_fetch_mocks.py -/

/-- Literal mockFetch.mockReset(); : the trigger of the insertion rule in
fix_fetch_mocks and group 3 of pattern 1 in fix_setup_auth_mocks. -/
def resetLit : List Char := "mockFetch.mockReset();".toList

/-- Literal wrapFetchMock, the guard string of fix_fetch_mocks. -/
def wfmLit : List Char := "wrapFetchMock".toList

/-- Text inserted after the trigger by add_wrap_after_reset. -/
def wrapInsLit : List Char := "\n    wrapFetchMock(mockFetch);".toList

/-- Literal mockFetch checked by update_test_file. -/
def mockFetchLit : List Char := "mockFetch".toList

/-- Literal import, head of fix_fetch_mocks' import pattern. -/
def importLit : List Char := "import".toList

/-- Literal setupAuthMocks. -/
def samLit : List Char := "setupAuthMocks".toList

/-- Replacement text used inside add_wrap_to_import. -/
def samRepLit : List Char := "setupAuthMocks, wrapFetchMock".toList

/-- Matcher of the regex mockFetch\.mockReset\(\);(?!\s*wrapFetchMock): the
literal trigger followed by a negative lookahead.  The lookahead succeeds
exactly when wrapFetchMock follows the whitespace run after the trigger,
because its first character is not whitespace. -/
def resetMatch (s : List Char) : Option (List Char × Nat) :=
  if resetLit.isPrefixOf s
      && !(wfmLit.isPrefixOf (List.dropWhile isPySpace (s.drop resetLit.length))) then
    some (resetLit ++ wrapInsLit, resetLit.length)
  else none

/-- Content transformation of fix_fetch_mocks lines 73 to 80: re.sub of the
guarded trigger pattern, appending wrapFetchMock(mockFetch); to each match. -/
def resetSub (l : List Char) : List Char := subScan resetMatch l

/-- Replacement function add_wrap_to_import of fix_fetch_mocks: if the
matched import line does not contain wrapFetchMock, every occurrence of
setupAuthMocks in it is replaced. -/
def addWrapToImport (line : List Char) : List Char :=
  if isSub wfmLit line then line
  else replaceAll samLit samRepLit line

/-- Matcher of the regex (import\s+\x7b[^\x7d]*setupAuthMocks[^\x7d]*\x7d): the
literal import, at least one whitespace character (the run is maximal since
the following brace is not whitespace), an opening brace, a brace-free
region that must contain setupAuthMocks (the greedy character classes
backtrack inside the maximal brace-free run), and the closing brace. -/
def importMatch (s : List Char) : Option (List Char × Nat) :=
  if importLit.isPrefixOf s then
    let w := List.takeWhile isPySpace (s.drop importLit.length)
    let afterW := s.drop (importLit.length + w.length)
    if !w.isEmpty && afterW.headD ' ' == '\x7b' then
      let r := List.takeWhile (fun c => !(c == '\x7d')) (afterW.drop 1)
      let afterR := afterW.drop (1 + r.length)
      if isSub samLit r && afterR.headD ' ' == '\x7d' then
        some (addWrapToImport (importLit ++ w ++ '\x7b' :: r ++ ['\x7d']),
          importLit.length + w.length + 1 + r.length + 1)
      else none
    else none
  else none

/-- The import rewrite of fix_fetch_mocks lines 56 to 64. -/
def importSub (l : List Char) : List Char := subScan importMatch l

/-- Outcome reported by fix_fetch_mocks.update_test_file for one file. -/
inductive FetchOutcome
  | notFound
  | alreadyUpdated
  | noMockFetch
  | noSetupAuthMocks
  | updated
  | noChanges
deriving DecidableEq

/-- File system: partial map from path to content. -/
def FS : Type := String → Option (List Char)

/-- Overwriting one file in place. -/
def writeFS (p : String) (c : List Char) (fs : FS) : FS :=
  fun q => if q = p then some c else fs q

/-- update_test_file of fix_fetch_mocks: existence check, read, the three
guard checks, the import rewrite then the insertion rewrite, and a write
only when the content changed. -/
def updateTestFileFS (fs : FS) (p : String) : FS × FetchOutcome :=
  match fs p with
  | none => (fs, .notFound)
  | some content =>
    if isSub wfmLit content then (fs, .alreadyUpdated)
    else if !(isSub mockFetchLit content) then (fs, .noMockFetch)
    else if !(isSub samLit content) then (fs, .noSetupAuthMocks)
    else
      let c2 := resetSub (importSub content)
      if c2 ≠ content then (writeFS p c2 fs, .updated) else (fs, .noChanges)

/-- One iteration of fix_fetch_mocks.main's loop over test_files. -/
def fetchBatchStep (fs : FS) (p : String) : FS := (updateTestFileFS fs p).1

/-- main() of fix_fetch_mocks over an arbitrary path list. -/
def runFetchBatch (fs : FS) (paths : List String) : FS :=
  paths.foldl fetchBatchStep fs

/-! ### Embedding of fix_mock_responses.py -/

/-- Anchor literal of pattern 1 of wrap_array_in_paginated_response. -/
def lit1 : List Char := "mockFetch.mockResolvedValue(createMockResponse(".toList

/-- Anchor literal of pattern 2 of wrap_array_in_paginated_response. -/
def lit2 : List Char := "Promise.resolve(createMockResponse(".toList

/-- Literal )) closing both patterns. -/
def parrLit : List Char := "))".toList

/-- Literal null, excluded by replace_simple and replace_promise. -/
def nullLit : List Char := "null".toList

/-- Literal undefined, excluded by replace_simple and replace_promise. -/
def undefLit : List Char := "undefined".toList

/-- Opening of the pagination envelope in the replacement text. -/
def midALit : List Char := "\x7b content: ".toList

/-- Middle piece of the pagination envelope. -/
def midBLit : List Char := ", totalElements: ".toList

/-- Closing piece of the pagination envelope. -/
def midCLit : List Char := ".length, totalPages: 1, size: 1000, number: 0 \x7d))".toList

/-- The createMockResponse( literal shared as a suffix by both patterns. -/
def cmrLit : List Char := "createMockResponse(".toList

/-- Replacement of replace_simple and replace_promise given the pattern's
leading literal and the captured identifier: null, undefined and arguments
starting with a brace are returned unchanged, otherwise the argument is
wrapped in the pagination envelope. -/
def wrapRep (pre idt : List Char) : List Char :=
  if idt == nullLit || idt == undefLit || idt.headD ' ' == '\x7b' then
    pre ++ idt ++ parrLit
  else
    pre ++ midALit ++ idt ++ midBLit ++ idt ++ midCLit

/-- Matcher shared by fix_mock_responses' two patterns: the literal pre,
then a captured identifier [a-zA-Z_][a-zA-Z0-9_]* and the literal )).
The greedy identifier group is exactly the maximal identifier-character
run, because any backtracked shorter split leaves an identifier character
where ) is required. -/
def wrapMatch (pre : List Char) (s : List Char) : Option (List Char × Nat) :=
  if pre.isPrefixOf s then
    let after := s.drop pre.length
    let idt := List.takeWhile isIdChar after
    if !idt.isEmpty && isIdStart (idt.headD ' ')
        && parrLit.isPrefixOf (after.drop idt.length) then
      some (wrapRep pre idt, pre.length + idt.length + 2)
    else none
  else none

/-- wrap_array_in_paginated_response of fix_mock_responses: the re.sub of
pattern 1 followed by the re.sub of pattern 2. -/
def wrapPag (l : List Char) : List Char :=
  subScan (wrapMatch lit2) (subScan (wrapMatch lit1) l)

/-! ### Embedding of fix_setup_auth_mocks.py -/

/-- Group 1 of the three beforeEach patterns of fix_setup_auth_mocks. -/
def beAuthLit : List Char := "beforeEach(() => \x7b".toList

/-- The line inserted by fix_setup_auth_mocks. -/
def insAuthLit : List Char := "cleanupAuthMocks = setupAuthMocks();".toList

/-- First alternative of group 3 in pattern 2, and head of group 3 in
pattern 3. -/
def clearAllLit : List Char := "vi.clearAllMocks();".toList

/-- Second alternative of group 3 in pattern 2. -/
def globalFetchLit : List Char := "global.fetch = vi.fn();".toList

/-- Tail literal of group 3 in pattern 3. -/
def mswLit : List Char := "setupMswHandlers();".toList

/-- Suffix of a whitespace run from its last newline, if the run contains
one: the text captured by the group (\n\s*) when \s*(\n\s*) is matched
greedily against the run. -/
def lastNlSuffix : List Char → Option (List Char)
  | [] => none
  | c :: rest =>
    match lastNlSuffix rest with
    | some g => some g
    | none => if c == '\n' then some (c :: rest) else none

/-- Matcher of fix_setup_auth_mocks pattern 1:
(beforeEach\(\(\) => \x7b)\s*(\n\s*)(mockFetch\.mockReset\(\);).  The
combined whitespace consumed between group 1 and group 3 is the maximal
whitespace run (group 3 starts with a non-whitespace character) and must
contain a newline; the greedy leading \s* puts the captured group 2 at the
run's last newline.  The replacement is \1\2cleanupAuthMocks =
setupAuthMocks();\2\3. -/
def authMatch1 (s : List Char) : Option (List Char × Nat) :=
  if beAuthLit.isPrefixOf s then
    let w := List.takeWhile isPySpace (s.drop beAuthLit.length)
    match lastNlSuffix w with
    | none => none
    | some g2 =>
      if resetLit.isPrefixOf (s.drop (beAuthLit.length + w.length)) then
        some (beAuthLit ++ g2 ++ insAuthLit ++ g2 ++ resetLit,
          beAuthLit.length + w.length + resetLit.length)
      else none
  else none

/-- Matcher of fix_setup_auth_mocks pattern 2, whose group 3 is the
alternation vi\.clearAllMocks\(\);|global\.fetch = vi\.fn\(\); tried left
to right. -/
def authMatch2 (s : List Char) : Option (List Char × Nat) :=
  if beAuthLit.isPrefixOf s then
    let w := List.takeWhile isPySpace (s.drop beAuthLit.length)
    match lastNlSuffix w with
    | none => none
    | some g2 =>
      let after := s.drop (beAuthLit.length + w.length)
      if clearAllLit.isPrefixOf after then
        some (beAuthLit ++ g2 ++ insAuthLit ++ g2 ++ clearAllLit,
          beAuthLit.length + w.length + clearAllLit.length)
      else if globalFetchLit.isPrefixOf after then
        some (beAuthLit ++ g2 ++ insAuthLit ++ g2 ++ globalFetchLit,
          beAuthLit.length + w.length + globalFetchLit.length)
      else none
  else none

/-- Matcher of fix_setup_auth_mocks pattern 3, whose group 3 is
vi\.clearAllMocks\(\);\s*\n\s*setupMswHandlers\(\); with the inner
whitespace again a maximal run that must contain a newline. -/
def authMatch3 (s : List Char) : Option (List Char × Nat) :=
  if beAuthLit.isPrefixOf s then
    let w := List.takeWhile isPySpace (s.drop beAuthLit.length)
    match lastNlSuffix w with
    | none => none
    | some g2 =>
      let after := s.drop (beAuthLit.length + w.length)
      if clearAllLit.isPrefixOf after then
        let w2 := List.takeWhile isPySpace (after.drop clearAllLit.length)
        if w2.any (fun c => c == '\n')
            && mswLit.isPrefixOf (after.drop (clearAllLit.length + w2.length)) then
          some (beAuthLit ++ g2 ++ insAuthLit ++ g2
              ++ (clearAllLit ++ w2 ++ mswLit),
            beAuthLit.length + w.length + clearAllLit.length + w2.length + mswLit.length)
        else none
      else none
  else none

/-- Identifier for the three insertion patterns of fix_setup_auth_mocks. -/
inductive AuthPat
  | p1
  | p2
  | p3
deriving DecidableEq

/-- Lines 44 to 59 of fix_setup_auth_mocks.fix_test_file: pattern 1 is
substituted, pattern 2 only if the content still equals the original, and
pattern 3 only if it still does after that. -/
def fixSetupAuthContent (c0 : List Char) : List Char :=
  let c1 := subScan authMatch1 c0
  let c2 := if c1 = c0 then subScan authMatch2 c1 else c1
  if c2 = c0 then subScan authMatch3 c2 else c2

/-- The patterns whose re.sub the script actually executes on a given
content, in order. -/
def fixSetupAuthAttempted (c0 : List Char) : List AuthPat :=
  let c1 := subScan authMatch1 c0
  if c1 = c0 then
    let c2 := subScan authMatch2 c1
    if c2 = c0 then [.p1, .p2, .p3] else [.p1, .p2]
  else [.p1]

/-- The patterns that are executed and change the content. -/
def fixSetupAuthApplied (c0 : List Char) : List AuthPat :=
  let c1 := subScan authMatch1 c0
  if c1 = c0 then
    let c2 := subScan authMatch2 c1
    if c2 = c0 then
      (if subScan authMatch3 c2 = c0 then [] else [.p3])
    else [.p2]
  else [.p1]

/-! ### Embedding of fix_tests.py -/

/-- Python str.split on the newline character. -/
def splitOnNl : List Char → List (List Char)
  | [] => [[]]
  | c :: rest =>
    match splitOnNl rest with
    | [] => [[c]]
    | h :: t => if c == '\n' then [] :: h :: t else (c :: h) :: t

/-- Loop state of fix_tests.fix_test_file.  The variable in_describe_block of
the source is initialised and never read, so it is not modelled. -/
structure FtSt where
  inCW : Bool
  braceCount : Int
  addedImport : Bool
  addedCleanup : Bool
  describeDepth : Nat
deriving DecidableEq

/-- Literal from 'vitest' triggering the import insertion. -/
def vitestLit : List Char := "from \x27vitest\x27".toList

/-- The import line fix_tests inserts. -/
def tuImportLit : List Char :=
  "import \x7b createTestWrapper, setupAuthMocks \x7d from \x27../../test/testUtils\x27;".toList

/-- The old-import markers whose lines are removed. -/
def oldImportLits : List (List Char) :=
  ["BrowserRouter".toList, "QueryClient".toList, "QueryClientProvider".toList,
    "I18nProvider".toList, "ToastProvider".toList]

/-- Literal function createWrapper(). -/
def fnCwLit : List Char := "function createWrapper()".toList

/-- Literal function createTestWrapper(). -/
def fnCtwLit : List Char := "function createTestWrapper()".toList

/-- Call text replaced on every surviving line. -/
def cwCallLit : List Char := "createWrapper()".toList

/-- Replacement call text. -/
def ctwCallLit : List Char := "createTestWrapper()".toList

/-- Literal describe( used for depth tracking. -/
def describeLit : List Char := "describe(".toList

/-- Declaration line inserted after the first describe. -/
def cleanupVarLit : List Char := "  let cleanupAuthMocks: () => void;".toList

/-- Top-level beforeEach line pattern. -/
def beLineLit : List Char := "  beforeEach(() => \x7b".toList

/-- Top-level afterEach line pattern. -/
def aeLineLit : List Char := "  afterEach(() => \x7b".toList

/-- Lookahead marker cleanupAuthMocks. -/
def camLit : List Char := "cleanupAuthMocks".toList

/-- Setup line inserted in beforeEach. -/
def setupCallLit : List Char := "    cleanupAuthMocks = setupAuthMocks();".toList

/-- Cleanup line inserted in afterEach. -/
def cleanupCallLit : List Char := "    cleanupAuthMocks();".toList

/-- Guard string of fix_tests.fix_test_file. -/
def ctwGuardLit : List Char := "createTestWrapper".toList

/-- Lookahead test of fix_tests: the next line exists and does not already
contain cleanupAuthMocks. -/
def ftNeedsInsert (next? : Option (List Char)) : Bool :=
  match next? with
  | some nxt => !(isSub camLit nxt)
  | none => false

/-- Tail of fix_tests' loop body: the beforeEach and afterEach handling and
the default append, applied to the line after createWrapper renaming. -/
def ftTail (st : FtSt) (line : List Char) (next? : Option (List Char)) :
    FtSt × List (List Char) :=
  if isSub beLineLit line && st.describeDepth == 1 then
    (st, line :: (if ftNeedsInsert next? then [setupCallLit] else []))
  else if isSub aeLineLit line && st.describeDepth == 1 then
    (st, line :: (if ftNeedsInsert next? then [cleanupCallLit] else []))
  else (st, [line])

/-- One iteration of fix_tests.fix_test_file's line loop, in source order:
the import insertion, old-import removal, createWrapper-function skipping with
brace counting, createWrapper() renaming, describe tracking with the
cleanup declaration, then the beforeEach and afterEach insertions. -/
def ftStep (st : FtSt) (line : List Char) (next? : Option (List Char)) :
    FtSt × List (List Char) :=
  if isSub vitestLit line && !st.addedImport then
    ({ st with addedImport := true }, [line, tuImportLit])
  else if (oldImportLits.any (fun x => isSub x line)) && isSub importLit line then
    (st, [])
  else if isSub fnCwLit line || isSub fnCtwLit line then
    ({ st with inCW := true, braceCount := 0 }, [])
  else if st.inCW then
    let bc := st.braceCount + (line.count '\x7b' : Int) - (line.count '\x7d' : Int)
    (if bc < 0 then { st with inCW := false, braceCount := bc }
      else { st with braceCount := bc }, [])
  else
    let line2 := replaceAll cwCallLit ctwCallLit line
    if isSub describeLit line2 then
      let st2 := { st with describeDepth := st.describeDepth + 1 }
      if st2.describeDepth == 1 && !st.addedCleanup then
        ({ st2 with addedCleanup := true }, [line2, cleanupVarLit, []])
      else ftTail st2 line2 next?
    else ftTail st line2 next?

/-- The line loop of fix_tests.fix_test_file.  The loop index is only used
for the lookahead lines[i+1], which is the head of the remaining lines. -/
def ftLoop (st : FtSt) : List (List Char) → List (List Char)
  | [] => []
  | line :: rest =>
    let pr := ftStep st line rest.head?
    pr.2 ++ ftLoop pr.1 rest

/-- In-memory transformation of fix_tests.fix_test_file after the guard:
split on newlines, run the loop, join with newlines. -/
def ftTransform (content : List Char) : List Char :=
  List.intercalate ['\n'] (ftLoop ⟨false, 0, false, false, 0⟩ (splitOnNl content))

/-- fix_test_file of fix_tests at file-system level: the read raises on a
missing file (there is no existence check); the guard skips without
writing; otherwise the transformed lines are written back. -/
def fixTestFileRun (fs : FS) (p : String) : Except Unit FS :=
  match fs p with
  | none => .error ()
  | some content =>
    if isSub ctwGuardLit content then .ok fs
    else .ok (writeFS p (ftTransform content) fs)

/-- One iteration of fix_tests' module-level loop: try/except around
fix_test_file, so an exception is reported and the batch continues with
the file system unchanged. -/
def fixTestsBatchStep (fs : FS) (p : String) : FS :=
  match fixTestFileRun fs p with
  | .error _ => fs
  | .ok fs2 => fs2

/-- The module-level loop of fix_tests over an arbitrary path list. -/
def runFixTestsBatch (fs : FS) (paths : List String) : FS :=
  paths.foldl fixTestsBatchStep fs

/-! ### Embedding of fix_resource_form_tests.py -/

/-- Malformed-pattern marker of fix_resource_form_tests. -/
def rfPatLit : List Char := "global.fetch = vi.fn().mockImplementation".toList

/-- Next-line marker wrapFetchMock(vi); . -/
def rfWvLit : List Char := "wrapFetchMock(vi);".toList

/-- Replaced text on the matched line. -/
def rfFromLit : List Char := "global.fetch = vi.fn()".toList

/-- Replacement text on the matched line. -/
def rfToLit : List Char := "const mockFetch = vi.fn()".toList

/-- End-of-block marker as typeof global.fetch. -/
def rfMarkLit : List Char := "as typeof global.fetch".toList

/-- Inserted call. -/
def rfWrapCallLit : List Char := "wrapFetchMock(mockFetch);".toList

/-- Inner while loop of fix_resource_form_tests: scans lines, counting braces
per line and recording whether an opening brace was seen; when a line closes
the count to zero, has seen an opening and carries the end marker, it emits
the accumulated block followed by the indented wrapFetchMock call and a
blank line, and returns the remaining lines.  When the scan exhausts the
file the accumulated block lines are discarded (the source never extends
fixed_lines with them). -/
def rfInner (bc : Int) (fo : Bool) :
    List (List Char) → Option (List (List Char) × List (List Char))
  | [] => none
  | cur :: rest =>
    let nOpen : Nat := cur.count '\x7b'
    let bc1 : Int := if 0 < nOpen then bc + (nOpen : Int) else bc
    let fo1 : Bool := if 0 < nOpen then true else fo
    let nClose : Nat := cur.count '\x7d'
    let bc2 : Int := if 0 < nClose then bc1 - (nClose : Int) else bc1
    if fo1 && bc2 == 0 && isSub rfMarkLit cur then
      some ([cur, List.replicate (List.takeWhile isPySpace cur).length ' ' ++ rfWrapCallLit, []],
        rest)
    else
      match rfInner bc2 fo1 rest with
      | some (blk, rem) => some (cur :: blk, rem)
      | none => none

theorem rfInner_rem_lt (bc : Int) (fo : Bool) :
    ∀ ls blk rem, rfInner bc fo ls = some (blk, rem) → rem.length < ls.length := by
  intro ls
  induction ls generalizing bc fo with
  | nil => intro blk rem h; exact absurd h (by simp [rfInner])
  | cons cur rest ih =>
    intro blk rem h
    rw [rfInner] at h
    by_cases hc : ((if 0 < cur.count '\x7b' then true else fo)
        && (if 0 < cur.count '\x7d' then
              (if 0 < cur.count '\x7b' then bc + (cur.count '\x7b' : Int) else bc)
                - (cur.count '\x7d' : Int)
            else (if 0 < cur.count '\x7b' then bc + (cur.count '\x7b' : Int) else bc)) == 0
        && isSub rfMarkLit cur) = true
    · rw [if_pos hc] at h
      obtain ⟨h1, h2⟩ := Prod.mk.injEq .. ▸ Option.some.injEq .. ▸ h
      subst h2
      simp
    · rw [if_neg hc] at h
      cases hrec : rfInner (if 0 < cur.count '\x7d' then
              (if 0 < cur.count '\x7b' then bc + (cur.count '\x7b' : Int) else bc)
                - (cur.count '\x7d' : Int)
            else (if 0 < cur.count '\x7b' then bc + (cur.count '\x7b' : Int) else bc))
          (if 0 < cur.count '\x7b' then true else fo) rest with
      | none => rw [hrec] at h; exact absurd h (by simp)
      | some pr =>
        rw [hrec] at h
        obtain ⟨blk2, rem2⟩ := pr
        have := ih _ _ _ _ hrec
        have heq : rem = rem2 := by
          simp only [Option.some.injEq, Prod.mk.injEq] at h
          exact h.2.symm ▸ rfl
        subst heq
        exact Nat.lt_succ_of_lt this

/-- Fuelled outer loop of fix_resource_form_tests. -/
def rfLoopF : Nat → List (List Char) → List (List Char)
  | 0, _ => []
  | _ + 1, [] => []
  | n + 1, line :: rest =>
    if isSub rfPatLit line
        && (match rest.head? with | some nxt => isSub rfWvLit nxt | none => false) then
      match rfInner 0 false (rest.drop 1) with
      | some (blk, rem) => replaceAll rfFromLit rfToLit line :: (blk ++ rfLoopF n rem)
      | none => [replaceAll rfFromLit rfToLit line]
    else line :: rfLoopF n rest

/-- Outer while loop of fix_resource_form_tests with adequate fuel. -/
def rfLoop (ls : List (List Char)) : List (List Char) := rfLoopF ls.length ls

/-- Path fix_resource_form_tests reads and writes. -/
def rfPath : String := "src/pages/ResourceFormPage/ResourceFormPage.test.tsx"

/-- The module-level script fix_resource_form_tests as a run over the file
system: the unguarded open() raises when the file is missing; otherwise the
rewritten lines are joined and written back. -/
def fixResourceFormRun (fs : FS) : Except Unit FS :=
  match fs rfPath with
  | none => .error ()
  | some content =>
    .ok (writeFS rfPath (List.intercalate ['\n'] (rfLoop (splitOnNl content))) fs)

/-- Observation that a run ended in an uncaught exception. -/
def aborts (e : Except Unit FS) : Bool :=
  match e with
  | .error _ => true
  | .ok _ => false

/-! ### Read-transform-write pipelines, for the error-ordering claims -/

/-- Read-transform-write skeleton of the per-file updaters that write only
when the content changed (update_test_file in fix_fetch_mocks and in
fix_mock_responses).  The in-memory transformation step is abstracted as a
fallible function so that a Python exception raised while transforming is
representable; the write statement is sequenced after it, exactly as in the
source. -/
def updateFilePipeline (t : List Char → Except Unit (List Char)) (fs : FS) (p : String) :
    Except Unit FS :=
  match fs p with
  | none => .error ()
  | some c =>
    match t c with
    | .error e => .error e
    | .ok c2 => .ok (if c2 ≠ c then writeFS p c2 fs else fs)

/-- Read-transform-write skeleton of fix_tests.fix_test_file, which writes
the joined lines unconditionally after the transformation completes. -/
def joinWritePipeline (t : List Char → Except Unit (List Char)) (fs : FS) (p : String) :
    Except Unit FS :=
  match fs p with
  | none => .error ()
  | some c =>
    match t c with
    | .error e => .error e
    | .ok c2 => .ok (writeFS p c2 fs)

/-- Caught interpretation of a per-file run, as in fix_tests' batch loop: an
exception leaves the file system as it was. -/
def runCaught (r : Except Unit FS) (fs : FS) : FS :=
  match r with
  | .error _ => fs
  | .ok fs2 => fs2


/-! ### Generic facts about prefixes and the scanner -/

/-- Alias for the library characterisation of the Boolean prefix test. -/
theorem isPrefixOfIff {p s : List Char} : p.isPrefixOf s = true ↔ p <+: s :=
  List.isPrefixOf_iff_prefix

/-- Alias: takeWhile yields a prefix. -/
theorem takeWhilePref (p : Char → Bool) (l : List Char) : l.takeWhile p <+: l :=
  List.takeWhile_prefix p

/-- Bridge between the Boolean substring test and List.IsInfix. -/
theorem isSub_iff {n : List Char} : ∀ {h : List Char}, isSub n h = true ↔ n <:+: h := by
  intro h
  induction h with
  | nil =>
    simp [isSub, List.isEmpty_iff, List.infix_nil]
  | cons c t ih =>
    rw [isSub, List.infix_cons_iff, Bool.or_eq_true, isPrefixOfIff, ih]

/-- Characters of a prefix agree with the characters of the list. -/
theorem prefAgree {p s : List Char} (h : p <+: s) {k : Nat} (hk : k < p.length) :
    s[k]? = p[k]? := by
  obtain ⟨t, rfl⟩ := h
  exact List.getElem?_append_left hk

/-- A character mismatch refutes a prefix. -/
theorem notPrefOfMismatch {p s : List Char} {k : Nat} (hk : k < p.length)
    (hne : s[k]? ≠ p[k]?) : ¬ p <+: s := fun h => hne (prefAgree h hk)

/-- Splitting a prefix of an append. -/
theorem prefSplit {p u v : List Char} (h : p <+: u ++ v) :
    p <+: u ∨ (u <+: p ∧ p.drop u.length <+: v) := by
  rcases Nat.le_total p.length u.length with hle | hle
  · left
    have hp := List.prefix_iff_eq_take.mp h
    rw [List.take_append_of_le_length hle] at hp
    rw [hp]
    exact List.take_prefix _ _
  · right
    have hp := List.prefix_iff_eq_take.mp h
    have hsplit : p.length = u.length + (p.length - u.length) := by omega
    rw [hsplit, List.take_append] at hp
    constructor
    · rw [hp]; exact ⟨_, rfl⟩
    · rw [hp, List.drop_left]
      exact List.take_prefix _ _

/-- The matcher consumes at least one and at most all characters. -/
def ConsumesOk (m : List Char → Option (List Char × Nat)) : Prop :=
  ∀ s rep k, m s = some (rep, k) → 1 ≤ k ∧ k ≤ s.length

/-- Every match anywhere in s is an identity match: its replacement is the
matched text itself. -/
def OnlyIdMatches (m : List Char → Option (List Char × Nat)) (s : List Char) : Prop :=
  ∀ j rep k, m (List.drop j s) = some (rep, k) → rep = List.take k (List.drop j s)

/-- No position of s matches m. -/
def NoMatches (m : List Char → Option (List Char × Nat)) (s : List Char) : Prop :=
  ∀ j, m (List.drop j s) = none

theorem noMatches_onlyId {m : List Char → Option (List Char × Nat)} {s : List Char}
    (h : NoMatches m s) : OnlyIdMatches m s := by
  intro j rep k hj
  rw [h j] at hj
  exact absurd hj (by simp)

/-- On content whose matches are all identity matches, the scan is the
identity; in particular a pass with no matches changes nothing. -/
theorem subScan_eq_self_of_onlyId {m : List Char → Option (List Char × Nat)}
    (hm : ConsumesOk m) : ∀ s, OnlyIdMatches m s → subScan m s = s := by
  have main : ∀ n s, s.length ≤ n → OnlyIdMatches m s → subScan m s = s := by
    intro n
    induction n with
    | zero =>
      intro s hs _
      have : s = [] := List.length_eq_zero.mp (Nat.le_zero.mp hs)
      subst this
      exact subScan_nil m
    | succ n ih =>
      intro s hs h
      cases s with
      | nil => exact subScan_nil m
      | cons c cs =>
        cases hm0 : m (c :: cs) with
        | none =>
          rw [subScan_cons_none m c cs hm0]
          have hcs : OnlyIdMatches m cs := by
            intro j rep k hj
            exact h (j+1) rep k (by simpa using hj)
          rw [ih cs (by simpa using hs) hcs]
        | some rk =>
          obtain ⟨rep, k⟩ := rk
          have hk := hm _ _ _ hm0
          have hrep : rep = List.take k (c :: cs) := by
            have := h 0 rep k (by simpa using hm0)
            simpa using this
          rw [subScan_cons_some m c cs rep k hm0]
          have hmax : max k 1 = k := Nat.max_eq_left hk.1
          rw [hmax, hrep]
          have hdrop : OnlyIdMatches m (List.drop k (c :: cs)) := by
            intro j rep2 k2 hj
            have := h (k + j) rep2 k2 (by rw [← List.drop_drop]; exact hj)
            rw [← List.drop_drop] at this
            exact this
          have hlen : (List.drop k (c :: cs)).length ≤ n := by
            rw [List.length_drop]
            have : (c :: cs).length = cs.length + 1 := rfl
            have hcs : cs.length + 1 ≤ n + 1 := hs
            omega
          rw [ih _ hlen hdrop, List.take_append_drop]
  intro s
  exact main s.length s (Nat.le_refl _)

/-- A matcher with the consumption bounds never matches the empty list. -/
theorem matcher_nil_none {m : List Char → Option (List Char × Nat)}
    (hm : ConsumesOk m) : m ([] : List Char) = none := by
  cases hm0 : m ([] : List Char) with
  | none => rfl
  | some rk =>
    obtain ⟨rep, k⟩ := rk
    obtain ⟨h1, h2⟩ := hm _ _ _ hm0
    simp at h2
    omega

/-- First-match decomposition of a scan: either no position matches and the
scan is the identity, or there is a leftmost match, before which no
position matches, and the scan is copy, replacement, recursion. -/
theorem subScan_first {m : List Char → Option (List Char × Nat)} (hm : ConsumesOk m) :
    ∀ s, (NoMatches m s ∧ subScan m s = s) ∨
      ∃ j rep k, m (List.drop j s) = some (rep, k) ∧
        (∀ i, i < j → m (List.drop i s) = none) ∧ j + k ≤ s.length ∧
        subScan m s = List.take j s ++ rep ++ subScan m (List.drop (j + k) s) := by
  have main : ∀ n s, s.length ≤ n →
      (NoMatches m s ∧ subScan m s = s) ∨
      ∃ j rep k, m (List.drop j s) = some (rep, k) ∧
        (∀ i, i < j → m (List.drop i s) = none) ∧ j + k ≤ s.length ∧
        subScan m s = List.take j s ++ rep ++ subScan m (List.drop (j + k) s) := by
    intro n
    induction n with
    | zero =>
      intro s hs
      have : s = [] := List.length_eq_zero.mp (Nat.le_zero.mp hs)
      subst this
      left
      exact ⟨fun j => by simpa using matcher_nil_none hm, subScan_nil m⟩
    | succ n ih =>
      intro s hs
      cases s with
      | nil =>
        left
        exact ⟨fun j => by simpa using matcher_nil_none hm, subScan_nil m⟩
      | cons c cs =>
        cases hm0 : m (c :: cs) with
        | some rk =>
          obtain ⟨rep, k⟩ := rk
          right
          obtain ⟨hk1, hk2⟩ := hm _ _ _ hm0
          refine ⟨0, rep, k, by simpa using hm0, by omega, by simpa using hk2, ?_⟩
          have hmax : max k 1 = k := Nat.max_eq_left hk1
          rw [subScan_cons_some m c cs rep k hm0, hmax]
          simp
        | none =>
          rcases ih cs (by simpa using hs) with ⟨hnm, heq⟩ | ⟨j, rep, k, hj, hmin, hle, heq⟩
          · left
            constructor
            · intro j
              cases j with
              | zero => simpa using hm0
              | succ j => simpa using hnm j
            · rw [subScan_cons_none m c cs hm0, heq]
          · right
            refine ⟨j + 1, rep, k, by simpa using hj, ?_, ?_, ?_⟩
            · intro i hi
              cases i with
              | zero => simpa using hm0
              | succ i => simpa using hmin i (by omega)
            · have hlen : (c :: cs).length = cs.length + 1 := rfl
              omega
            · rw [subScan_cons_none m c cs hm0, heq]
              have h1 : List.take (j + 1) (c :: cs) = c :: List.take j cs := rfl
              have h2 : List.drop (j + 1 + k) (c :: cs) = List.drop (j + k) cs := by
                have h3 : j + 1 + k = (j + k) + 1 := by omega
                rw [h3]
                rfl
              rw [h1, h2]
              rfl
  intro s
  exact main s.length s (Nat.le_refl _)

/-- The matcher never matches strictly inside one of its own match regions. -/
def NoInterior (m : List Char → Option (List Char × Nat)) : Prop :=
  ∀ s rep k, m s = some (rep, k) → ∀ j, 0 < j → j < k → m (List.drop j s) = none

/-- Every matching position is reached by the scan, which therefore emits its
replacement, followed by the scan of what comes after the match. -/
theorem subScan_hits {m : List Char → Option (List Char × Nat)}
    (hm : ConsumesOk m) (hni : NoInterior m) :
    ∀ s j rep k, m (List.drop j s) = some (rep, k) →
      ∃ u, subScan m s = u ++ rep ++ subScan m (List.drop (j + k) s) := by
  have main : ∀ n s, s.length ≤ n → ∀ j rep k, m (List.drop j s) = some (rep, k) →
      ∃ u, subScan m s = u ++ rep ++ subScan m (List.drop (j + k) s) := by
    intro n
    induction n with
    | zero =>
      intro s hs j rep k hj
      have : s = [] := List.length_eq_zero.mp (Nat.le_zero.mp hs)
      subst this
      rw [List.drop_nil] at hj
      rw [matcher_nil_none hm] at hj
      exact absurd hj (by simp)
    | succ n ih =>
      intro s hs j rep k hj
      cases s with
      | nil =>
        rw [List.drop_nil] at hj
        rw [matcher_nil_none hm] at hj
        exact absurd hj (by simp)
      | cons c cs =>
        cases hm0 : m (c :: cs) with
        | some rk =>
          obtain ⟨rep0, k0⟩ := rk
          obtain ⟨hk1, hk2⟩ := hm _ _ _ hm0
          have hmax : max k0 1 = k0 := Nat.max_eq_left hk1
          have hlen0 : (c :: cs).length = cs.length + 1 := rfl
          have hdlen : (List.drop k0 (c :: cs)).length ≤ n := by
            rw [List.length_drop]
            have hcs : cs.length + 1 ≤ n + 1 := hs
            omega
          rcases Nat.lt_trichotomy j k0 with hlt | hjeq | hgt
          · rcases Nat.eq_zero_or_pos j with hj0 | hjpos
            · subst hj0
              rw [List.drop_zero] at hj
              have hinj := hm0.symm.trans hj
              rw [Option.some.injEq, Prod.mk.injEq] at hinj
              obtain ⟨hrepeq, hkeq⟩ := hinj
              refine ⟨[], ?_⟩
              rw [subScan_cons_some m c cs rep0 k0 hm0, hmax, hrepeq, hkeq]
              simp
            · have hnone := hni _ _ _ hm0 j hjpos hlt
              rw [hnone] at hj
              exact absurd hj (by simp)
          · have hj2 : m (List.drop 0 (List.drop k0 (c :: cs))) = some (rep, k) := by
              rw [List.drop_zero, ← hjeq]
              exact hj
            obtain ⟨u, hu⟩ := ih (List.drop k0 (c :: cs)) hdlen 0 rep k hj2
            refine ⟨rep0 ++ u, ?_⟩
            rw [subScan_cons_some m c cs rep0 k0 hm0, hmax, hu]
            have hdd : List.drop (0 + k) (List.drop k0 (c :: cs)) = List.drop (j + k) (c :: cs) := by
              rw [List.drop_drop]
              congr 1
              omega
            rw [hdd]
            simp [List.append_assoc]
          · have hj2 : m (List.drop (j - k0) (List.drop k0 (c :: cs))) = some (rep, k) := by
              rw [List.drop_drop]
              have harith : k0 + (j - k0) = j := by omega
              rw [harith]
              exact hj
            obtain ⟨u, hu⟩ := ih (List.drop k0 (c :: cs)) hdlen (j - k0) rep k hj2
            refine ⟨rep0 ++ u, ?_⟩
            rw [subScan_cons_some m c cs rep0 k0 hm0, hmax, hu]
            have hdd : List.drop (j - k0 + k) (List.drop k0 (c :: cs)) = List.drop (j + k) (c :: cs) := by
              rw [List.drop_drop]
              congr 1
              omega
            rw [hdd]
            simp [List.append_assoc]
        | none =>
          cases j with
          | zero =>
            rw [List.drop_zero] at hj
            rw [hm0] at hj
            exact absurd hj (by simp)
          | succ j =>
            obtain ⟨u, hu⟩ := ih cs (by simpa using hs) j rep k (by simpa using hj)
            refine ⟨c :: u, ?_⟩
            rw [subScan_cons_none m c cs hm0, hu]
            have h2 : List.drop (j + 1 + k) (c :: cs) = List.drop (j + k) cs := by
              have h3 : j + 1 + k = (j + k) + 1 := by omega
              rw [h3]
              rfl
            rw [h2]
            rfl
  intro s
  exact main s.length s (Nat.le_refl _)

/-- Copying frame: positions inside a match-free region are copied
verbatim. -/
theorem subScan_append_of_nomatch {m : List Char → Option (List Char × Nat)} :
    ∀ a b : List Char, (∀ j, j < a.length → m (List.drop j (a ++ b)) = none) →
      subScan m (a ++ b) = a ++ subScan m b := by
  intro a
  induction a with
  | nil => intro b _; rfl
  | cons c a2 ih =>
    intro b hnm
    have h0 : m (c :: (a2 ++ b)) = none := by
      have := hnm 0 (by simp)
      simpa using this
    have step : subScan m ((c :: a2) ++ b) = c :: subScan m (a2 ++ b) :=
      subScan_cons_none m c (a2 ++ b) h0
    rw [step, ih b (fun j hj => by
      have := hnm (j+1) (by simpa using Nat.succ_lt_succ hj)
      simpa using this)]
    rfl

/-! ### Consumption bounds for the concrete matchers -/

theorem replMatch_consumes (needle rep : List Char) (hne : needle ≠ []) :
    ConsumesOk (replMatch needle rep) := by
  intro s r k h
  rw [replMatch] at h
  split at h
  · next hp =>
    simp only [Option.some.injEq, Prod.mk.injEq] at h
    obtain ⟨h1, h2⟩ := h
    subst h2
    refine ⟨List.length_pos.mpr hne, ?_⟩
    exact (isPrefixOfIff.mp hp).length_le
  · exact absurd h (by simp)

theorem resetMatch_consumes : ConsumesOk resetMatch := by
  intro s r k h
  rw [resetMatch] at h
  split at h
  · next hp =>
    simp only [Option.some.injEq, Prod.mk.injEq] at h
    obtain ⟨h1, h2⟩ := h
    subst h2
    have hpre : resetLit <+: s := by
      have := (Bool.and_eq_true _ _).mp hp
      exact isPrefixOfIff.mp this.1
    refine ⟨?_, hpre.length_le⟩
    have : resetLit.length = 22 := by decide
    omega
  · exact absurd h (by simp)

theorem wrapMatch_consumes (pre : List Char) : ConsumesOk (wrapMatch pre) := by
  intro s r k h
  simp only [wrapMatch] at h
  split at h
  · next hp =>
    split at h
    · next hcond =>
      simp only [Option.some.injEq, Prod.mk.injEq] at h
      obtain ⟨h1, h2⟩ := h
      subst h2
      refine ⟨by omega, ?_⟩
      have hpar : parrLit <+:
          (List.drop pre.length s).drop
            (List.takeWhile isIdChar (List.drop pre.length s)).length := by
        have := (Bool.and_eq_true _ _).mp hcond
        exact isPrefixOfIff.mp this.2
      have hlen := hpar.length_le
      rw [List.drop_drop, List.length_drop] at hlen
      have hplen : parrLit.length = 2 := by decide
      omega
    · exact absurd h (by simp)
  · exact absurd h (by simp)

theorem importMatch_consumes : ConsumesOk importMatch := by
  intro s r k h
  simp only [importMatch] at h
  split at h
  · next hp =>
    split at h
    · next hcond =>
      split at h
      · next hcond2 =>
        simp only [Option.some.injEq, Prod.mk.injEq] at h
        obtain ⟨h1, h2⟩ := h
        subst h2
        refine ⟨by omega, ?_⟩
        have hclose := ((Bool.and_eq_true _ _).mp hcond2).2
        set w := List.takeWhile isPySpace (s.drop importLit.length) with hwdef
        set rr := List.takeWhile (fun c => !(c == '\x7d'))
          ((s.drop (importLit.length + w.length)).drop 1) with hrdef
        have hne : (s.drop (importLit.length + w.length)).drop (1 + rr.length) ≠ [] := by
          intro hnil
          rw [hnil] at hclose
          exact absurd hclose (by decide)
        have hlen : 0 < ((s.drop (importLit.length + w.length)).drop (1 + rr.length)).length :=
          List.length_pos.mpr hne
        rw [List.drop_drop, List.length_drop] at hlen
        omega
      · exact absurd h (by simp)
    · exact absurd h (by simp)
  · exact absurd h (by simp)

theorem authMatch1_consumes : ConsumesOk authMatch1 := by
  intro s r k h
  simp only [authMatch1] at h
  split at h
  · next hp =>
    split at h
    · exact absurd h (by simp)
    · next g2 hg2 =>
      split at h
      · next hreset =>
        simp only [Option.some.injEq, Prod.mk.injEq] at h
        obtain ⟨h1, h2⟩ := h
        subst h2
        have hpre := isPrefixOfIff.mp hreset
        have hlen := hpre.length_le
        rw [List.length_drop] at hlen
        have hb : beAuthLit.length = 18 := by decide
        have hr : resetLit.length = 22 := by decide
        refine ⟨by omega, by omega⟩
      · exact absurd h (by simp)
  · exact absurd h (by simp)

theorem authMatch2_consumes : ConsumesOk authMatch2 := by
  intro s r k h
  simp only [authMatch2] at h
  split at h
  · next hp =>
    split at h
    · exact absurd h (by simp)
    · next g2 hg2 =>
      split at h
      · next hca =>
        simp only [Option.some.injEq, Prod.mk.injEq] at h
        obtain ⟨h1, h2⟩ := h
        subst h2
        have hpre := isPrefixOfIff.mp hca
        have hlen := hpre.length_le
        rw [List.length_drop] at hlen
        have hb : beAuthLit.length = 18 := by decide
        have hc : clearAllLit.length = 19 := by decide
        refine ⟨by omega, by omega⟩
      · split at h
        · next hgf =>
          simp only [Option.some.injEq, Prod.mk.injEq] at h
          obtain ⟨h1, h2⟩ := h
          subst h2
          have hpre := isPrefixOfIff.mp hgf
          have hlen := hpre.length_le
          rw [List.length_drop] at hlen
          have hb : beAuthLit.length = 18 := by decide
          have hg : globalFetchLit.length = 23 := by decide
          refine ⟨by omega, by omega⟩
        · exact absurd h (by simp)
  · exact absurd h (by simp)

theorem authMatch3_consumes : ConsumesOk authMatch3 := by
  intro s r k h
  simp only [authMatch3] at h
  split at h
  · next hp =>
    split at h
    · exact absurd h (by simp)
    · next g2 hg2 =>
      split at h
      · next hca =>
        split at h
        · next hmsw =>
          simp only [Option.some.injEq, Prod.mk.injEq] at h
          obtain ⟨h1, h2⟩ := h
          subst h2
          have hpre := isPrefixOfIff.mp ((Bool.and_eq_true _ _).mp hmsw).2
          have hlen := hpre.length_le
          rw [List.drop_drop, List.length_drop] at hlen
          have hm : mswLit.length = 19 := by decide
          have hb : beAuthLit.length = 18 := by decide
          have hc : clearAllLit.length = 19 := by decide
          refine ⟨by omega, by omega⟩
        · exact absurd h (by simp)
      · exact absurd h (by simp)
  · exact absurd h (by simp)

/-- To establish the absence of matches it is enough to check positions
inside the content: beyond its end every drop is empty. -/
theorem noMatches_of_all_lt {m : List Char → Option (List Char × Nat)}
    (hm : ConsumesOk m) (s : List Char)
    (h : ∀ j, j < s.length → m (List.drop j s) = none) : NoMatches m s := by
  intro j
  by_cases hj : j < s.length
  · exact h j hj
  · have hd : List.drop j s = [] := List.drop_eq_nil_of_le (by omega)
    rw [hd]
    exact matcher_nil_none hm

/-! ### Claims about guards, batches and error handling -/

/-- Claim C3: a file whose content already contains the guard string anywhere
is skipped entirely: fix_fetch_mocks reports it as already updated and
fix_tests reports it as already fixed, no rule is applied, and the file
system is left unchanged. -/
theorem C3_guard_skip (fs : FS) (p : String) (content : List Char)
    (hread : fs p = some content) :
    (isSub wfmLit content = true →
      updateTestFileFS fs p = (fs, FetchOutcome.alreadyUpdated)) ∧
    (isSub ctwGuardLit content = true →
      fixTestFileRun fs p = Except.ok fs) := by
  constructor
  · intro hg
    simp only [updateTestFileFS, hread, hg]
    rfl
  · intro hg
    simp only [fixTestFileRun, hread, hg]
    rfl

/-- Witness for C3 at a concrete one-file file system. -/
theorem C3_guard_skip_witness :
    updateTestFileFS (fun q => if q = "a" then some wfmLit else none) "a"
        = ((fun q => if q = "a" then some wfmLit else none), FetchOutcome.alreadyUpdated) ∧
    fixTestFileRun (fun q => if q = "a" then some ctwGuardLit else none) "a"
        = Except.ok (fun q => if q = "a" then some ctwGuardLit else none) := by
  constructor
  · exact (C3_guard_skip _ "a" wfmLit (by simp)).1 (by decide)
  · exact (C3_guard_skip _ "a" ctwGuardLit (by simp)).2 (by decide)

/-- Claim C9: when the in-memory transformation raises before the write step,
no write occurs: both read-transform-write pipelines abort before touching
the file system, and under the per-file exception handler the file system is
returned exactly as it was. -/
theorem C9_no_write_on_transform_error
    (t : List Char → Except Unit (List Char)) (fs : FS) (p : String) (c : List Char)
    (hread : fs p = some c) (herr : t c = Except.error ()) :
    updateFilePipeline t fs p = Except.error () ∧
    joinWritePipeline t fs p = Except.error () ∧
    runCaught (updateFilePipeline t fs p) fs = fs ∧
    runCaught (joinWritePipeline t fs p) fs = fs := by
  refine ⟨?_, ?_, ?_, ?_⟩ <;> simp [updateFilePipeline, joinWritePipeline, runCaught, hread, herr]

/-- Witness for C9 with a transformation that always raises. -/
theorem C9_no_write_on_transform_error_witness :
    updateFilePipeline (fun _ => Except.error ()) (fun _ => some []) "a" = Except.error () ∧
    joinWritePipeline (fun _ => Except.error ()) (fun _ => some []) "a" = Except.error () ∧
    runCaught (updateFilePipeline (fun _ => Except.error ()) (fun _ => some []) "a")
        (fun _ => some []) = (fun _ => some []) ∧
    runCaught (joinWritePipeline (fun _ => Except.error ()) (fun _ => some []) "a")
        (fun _ => some []) = (fun _ => some []) :=
  C9_no_write_on_transform_error (fun _ => Except.error ()) (fun _ => some []) "a" [] rfl rfl

/-- Claim C4 counterexample: fix_resource_form_tests does not skip a missing
target; its module-level open() is unguarded, so the run aborts instead of
reporting, skipping and continuing. -/
theorem C4_missing_file_counterexample :
    fixResourceFormRun (fun _ => none) = Except.error () := rfl

/-- Claim C4 amended: in the scripts that guard with os.path.exists, such as
fix_fetch_mocks, a missing target path is reported as not found and skipped,
the file system is unchanged, and the batch continues with the remaining
paths; in fix_tests the per-file read failure is caught by the batch loop,
which also continues unchanged; but in fix_resource_form_tests a missing
file makes the whole run abort with an uncaught exception. -/
theorem C4_missing_file (fs : FS) (p : String) (rest : List String)
    (hmiss : fs p = none) :
    updateTestFileFS fs p = (fs, FetchOutcome.notFound) ∧
    runFetchBatch fs (p :: rest) = runFetchBatch fs rest ∧
    fixTestsBatchStep fs p = fs ∧
    runFixTestsBatch fs (p :: rest) = runFixTestsBatch fs rest ∧
    (fs rfPath = none → fixResourceFormRun fs = Except.error ()) := by
  have h1 : updateTestFileFS fs p = (fs, FetchOutcome.notFound) := by
    simp only [updateTestFileFS, hmiss]
  have h3 : fixTestsBatchStep fs p = fs := by
    simp only [fixTestsBatchStep, fixTestFileRun, hmiss]
  refine ⟨h1, ?_, h3, ?_, ?_⟩
  · rw [runFetchBatch, List.foldl_cons, fetchBatchStep, h1]
    rfl
  · rw [runFixTestsBatch, List.foldl_cons, h3]
    rfl
  · intro hrf
    simp only [fixResourceFormRun, hrf]

/-- Witness for C4 at the empty file system. -/
theorem C4_missing_file_witness :
    updateTestFileFS (fun _ => none) "a" = ((fun _ => none : FS), FetchOutcome.notFound) ∧
    runFetchBatch (fun _ => none) ["a", "b"] = runFetchBatch (fun _ => none) ["b"] :=
  ⟨(C4_missing_file (fun _ => none) "a" ["b"] rfl).1,
    (C4_missing_file (fun _ => none) "a" ["b"] rfl).2.1⟩

/-- Claim C8 counterexample: fix_resource_list_mocks-style module-level
scripts have no exception handling; concretely, running
fix_resource_form_tests on a file system without its target aborts with an
uncaught exception, so the process does not exit cleanly. -/
theorem C8_uncaught_counterexample :
    aborts (fixResourceFormRun (fun _ => none)) = true := rfl

/-- Claim C8 amended: fix_tests wraps each file in try/except, so one file's
failure leaves the file system unchanged for that file and the batch
continues with the remaining files; but in the module-level scripts without
any handler (fix_resource_form_tests, fix_resource_list_mocks and its v2) a
per-file error escalates to an uncaught exception that aborts the run. -/
theorem C8_error_propagation (fs : FS) (p : String) (rest : List String)
    (hfail : fixTestFileRun fs p = Except.error ()) :
    fixTestsBatchStep fs p = fs ∧
    runFixTestsBatch fs (p :: rest) = runFixTestsBatch fs rest ∧
    (fs rfPath = none → aborts (fixResourceFormRun fs) = true) := by
  have h1 : fixTestsBatchStep fs p = fs := by
    rw [fixTestsBatchStep, hfail]
  refine ⟨h1, ?_, ?_⟩
  · rw [runFixTestsBatch, List.foldl_cons, h1]
    rfl
  · intro hrf
    simp only [fixResourceFormRun, hrf]
    rfl

/-- Witness for C8 at the empty file system. -/
theorem C8_error_propagation_witness :
    fixTestsBatchStep (fun _ => none) "a" = (fun _ => none : FS) ∧
    runFixTestsBatch (fun _ => none) ["a", "b"] = runFixTestsBatch (fun _ => none) ["b"] :=
  ⟨(C8_error_propagation (fun _ => none) "a" ["b"] rfl).1,
    (C8_error_propagation (fun _ => none) "a" ["b"] rfl).2.1⟩

/-- Claim C10: the three beforeEach patterns of fix_setup_auth_mocks are
ordered fallbacks.  Pattern 2 is attempted only when pattern 1 changed
nothing, pattern 3 only when patterns 1 and 2 changed nothing, and at most
one of the three substitutions ever changes the content of a given file. -/
theorem C10_auth_fallback (c0 : List Char) :
    (AuthPat.p2 ∈ fixSetupAuthAttempted c0 → subScan authMatch1 c0 = c0) ∧
    (AuthPat.p3 ∈ fixSetupAuthAttempted c0 →
      subScan authMatch1 c0 = c0 ∧ subScan authMatch2 c0 = c0) ∧
    (fixSetupAuthApplied c0).length ≤ 1 := by
  by_cases h1 : subScan authMatch1 c0 = c0
  · by_cases h2 : subScan authMatch2 (subScan authMatch1 c0) = c0
    · have h2x : subScan authMatch2 c0 = c0 := by rw [h1] at h2; exact h2
      refine ⟨fun _ => h1, fun _ => ⟨h1, h2x⟩, ?_⟩
      simp only [fixSetupAuthApplied, if_pos h1, if_pos h2]
      split <;> simp
    · refine ⟨fun _ => h1, fun hmem => ?_, ?_⟩
      · exfalso
        simp only [fixSetupAuthAttempted, if_pos h1, if_neg h2] at hmem
        simp at hmem
      · simp only [fixSetupAuthApplied, if_pos h1, if_neg h2]
        simp
  · refine ⟨fun hmem => ?_, fun hmem => ?_, ?_⟩
    · exfalso
      simp only [fixSetupAuthAttempted, if_neg h1] at hmem
      simp at hmem
    · exfalso
      simp only [fixSetupAuthAttempted, if_neg h1] at hmem
      simp at hmem
    · simp only [fixSetupAuthApplied, if_neg h1]
      simp

/-- Witness for C10 on content that matches none of the patterns, so that
patterns 2 and 3 are genuinely attempted. -/
theorem C10_auth_fallback_witness :
    AuthPat.p2 ∈ fixSetupAuthAttempted ("x".toList) ∧
    AuthPat.p3 ∈ fixSetupAuthAttempted ("x".toList) ∧
    subScan authMatch1 ("x".toList) = "x".toList ∧
    subScan authMatch2 ("x".toList) = "x".toList :=
  ⟨by decide, by decide, (C10_auth_fallback ("x".toList)).1 (by decide),
    ((C10_auth_fallback ("x".toList)).2.1 (by decide)).2⟩

/-- If the end marker never occurs in the remaining lines, the inner scan of
fix_resource_form_tests never finds its end condition. -/
theorem rfInner_none_of_no_marker :
    ∀ (rest : List (List Char)), (∀ ln ∈ rest, isSub rfMarkLit ln = false) →
      ∀ bc fo, rfInner bc fo rest = none := by
  intro rest
  induction rest with
  | nil => intro _ bc fo; rfl
  | cons cur r ih =>
    intro h bc fo
    rw [rfInner]
    have hcur : isSub rfMarkLit cur = false := h cur (by simp)
    rw [if_neg (by simp [hcur])]
    rw [ih (fun ln hln => h ln (by simp [hln])) _ _]

/-- While skipping the createWrapper function, fix_tests drops every line; if
no remaining line contains a closing brace the count can never go negative,
so every remaining line is dropped. -/
theorem ftLoop_drops_all :
    ∀ (ls : List (List Char)) (st : FtSt), st.inCW = true → st.addedImport = true →
      0 ≤ st.braceCount → (∀ ln ∈ ls, ln.count '\x7d' = 0) → ftLoop st ls = [] := by
  intro ls
  induction ls with
  | nil => intro st _ _ _ _; rfl
  | cons line r ih =>
    intro st hcw hai hbc h
    have hline : line.count '\x7d' = 0 := h line (by simp)
    have hrest : ∀ ln ∈ r, ln.count '\x7d' = 0 := fun ln hln => h ln (by simp [hln])
    rw [ftLoop]
    rw [ftStep]
    rw [if_neg (by simp [hai])]
    by_cases h2 : ((oldImportLits.any fun x => isSub x line) && isSub importLit line) = true
    · rw [if_pos h2]
      simp only [List.nil_append]
      exact ih st hcw hai hbc hrest
    · rw [if_neg h2]
      by_cases h3 : (isSub fnCwLit line || isSub fnCtwLit line) = true
      · rw [if_pos h3]
        simp only [List.nil_append]
        exact ih _ rfl hai (by simp) hrest
      · rw [if_neg h3]
        rw [if_pos hcw]
        simp only [List.nil_append]
        have hc0 : (line.count '\x7d' : Int) = 0 := by rw [hline]; rfl
        have hnn : ¬ (st.braceCount + (line.count '\x7b' : Int) - (line.count '\x7d' : Int) < 0) := by
          rw [hc0]
          have : (0 : Int) ≤ (line.count '\x7b' : Int) := Int.ofNat_nonneg _
          omega
        rw [if_neg hnn]
        refine ih _ hcw hai ?_ hrest
        show 0 ≤ st.braceCount + (line.count '\x7b' : Int) - (line.count '\x7d' : Int)
        rw [hc0]
        have : (0 : Int) ≤ (line.count '\x7b' : Int) := Int.ofNat_nonneg _
        omega

/-- Claim C7 amended: when the balanced-token scan cannot find its structural
end, the affected lines do not appear unchanged in the output; they are
truncated away.  In fix_resource_form_tests, if the end marker never occurs
after a matched malformed line, the output ends at the rewritten matched
line and the block lines and everything after them are dropped.  In
fix_tests, while skipping a createWrapper function whose braces never close
(no closing brace occurs again), every remaining line is dropped. -/
theorem C7_truncation (mal wv : List Char) (rest : List (List Char))
    (ls2 : List (List Char)) (st : FtSt)
    (hmal : isSub rfPatLit mal = true) (hwv : isSub rfWvLit wv = true)
    (hnomark : ∀ ln ∈ rest, isSub rfMarkLit ln = false)
    (hcw : st.inCW = true) (hai : st.addedImport = true) (hbc : 0 ≤ st.braceCount)
    (hnoclose : ∀ ln ∈ ls2, ln.count '\x7d' = 0) :
    rfLoop (mal :: wv :: rest) = [replaceAll rfFromLit rfToLit mal] ∧
    ftLoop st ls2 = [] := by
  constructor
  · show rfLoopF (rest.length + 1 + 1) (mal :: wv :: rest) = _
    rw [rfLoopF]
    rw [if_pos (by simp [hmal, hwv])]
    have hdrop : (wv :: rest).drop 1 = rest := rfl
    rw [hdrop, rfInner_none_of_no_marker rest hnomark 0 false]
  · exact ftLoop_drops_all ls2 st hcw hai hbc hnoclose

/-- Concrete lines for the C7 counterexample: a malformed mock block whose
brace scan never satisfies the end condition. -/
def c7Lines : List (List Char) :=
  ["global.fetch = vi.fn().mockImplementation(() => \x7b".toList,
    "wrapFetchMock(vi);".toList,
    "x".toList,
    "\x7d);".toList]

/-- Claim C7 counterexample: on c7Lines the brace count never returns to zero
with the end marker, and the block's lines (for instance the line x, and the
final line) do not appear unchanged in the output; the whole block is
truncated away and only the rewritten first line remains. -/
theorem C7_truncation_counterexample :
    rfLoop c7Lines
      = ["const mockFetch = vi.fn().mockImplementation(() => \x7b".toList] ∧
    "x".toList ∈ c7Lines ∧ "x".toList ∉ rfLoop c7Lines := by
  refine ⟨by decide, by decide, by decide⟩

/-- Witness for the amended C7 on concrete lines. -/
theorem C7_truncation_witness :
    rfLoop (["global.fetch = vi.fn().mockImplementation".toList,
        "wrapFetchMock(vi);".toList, "y".toList])
      = [replaceAll rfFromLit rfToLit "global.fetch = vi.fn().mockImplementation".toList] ∧
    ftLoop ⟨true, 0, true, false, 0⟩ ["z".toList] = [] :=
  C7_truncation "global.fetch = vi.fn().mockImplementation".toList
    "wrapFetchMock(vi);".toList ["y".toList] ["z".toList] ⟨true, 0, true, false, 0⟩
    (by decide) (by decide) (by decide) rfl rfl (by decide) (by decide)

/-- Claim C2: no-op on absent trigger.  If no position of the content matches
either createMockResponse call-site shape, wrap_array_in_paginated_response
returns its input unchanged; and if mockFetch does not occur in a file's
content, fix_fetch_mocks changes nothing for that file. -/
theorem C2_noop_on_absent_trigger (l : List Char) (fs : FS) (p : String) (content : List Char)
    (h1 : NoMatches (wrapMatch lit1) l) (h2 : NoMatches (wrapMatch lit2) l)
    (hread : fs p = some content) (hmf : isSub mockFetchLit content = false) :
    wrapPag l = l ∧ (updateTestFileFS fs p).1 = fs := by
  have e1 : subScan (wrapMatch lit1) l = l :=
    subScan_eq_self_of_onlyId (wrapMatch_consumes lit1) l (noMatches_onlyId h1)
  have e2 : subScan (wrapMatch lit2) l = l :=
    subScan_eq_self_of_onlyId (wrapMatch_consumes lit2) l (noMatches_onlyId h2)
  refine ⟨?_, ?_⟩
  · rw [wrapPag, e1, e2]
  · have hcases : updateTestFileFS fs p = (fs, FetchOutcome.alreadyUpdated) ∨
        updateTestFileFS fs p = (fs, FetchOutcome.noMockFetch) := by
      simp only [updateTestFileFS, hread]
      by_cases hw : isSub wfmLit content = true
      · left
        rw [if_pos hw]
      · right
        rw [if_neg hw, if_pos (by simp [hmf])]
    rcases hcases with hm | hm <;> rw [hm]

/-- Witness for C2 on trigger-free content. -/
theorem C2_noop_on_absent_trigger_witness :
    wrapPag ("hello".toList) = "hello".toList ∧
    (updateTestFileFS (fun _ => some ("hello".toList)) "a").1
      = (fun _ => some ("hello".toList)) := by
  have h := C2_noop_on_absent_trigger ("hello".toList) (fun _ => some ("hello".toList)) "a"
    ("hello".toList)
    (noMatches_of_all_lt (wrapMatch_consumes lit1) _ (by decide))
    (noMatches_of_all_lt (wrapMatch_consumes lit2) _ (by decide))
    rfl (by decide)
  exact h

/-! ### Segment and transfer lemmas -/

theorem dropWhile_eq_drop (p : Char → Bool) (l : List Char) :
    l.dropWhile p = l.drop (l.takeWhile p).length := by
  calc l.dropWhile p
      = (l.takeWhile p ++ l.dropWhile p).drop (l.takeWhile p).length := by
        rw [List.drop_left]
    _ = l.drop (l.takeWhile p).length := by rw [List.takeWhile_append_dropWhile]

theorem prefOfAppendLeft {p u v : List Char} (h : p <+: u ++ v) (hl : p.length ≤ u.length) :
    p <+: u := by
  have hp := List.prefix_iff_eq_take.mp h
  rw [List.take_append_of_le_length hl] at hp
  rw [hp]
  exact List.take_prefix _ _

theorem prefAppendJoin {u v x : List Char} (hu : u <+: x) (hv : v <+: x.drop u.length) :
    u ++ v <+: x := by
  obtain ⟨t, ht⟩ := hv
  have hx : x = u ++ x.drop u.length := by
    obtain ⟨t2, ht2⟩ := hu
    rw [← ht2, List.drop_left]
  refine ⟨t, ?_⟩
  rw [List.append_assoc, ht]
  exact hx.symm

theorem seg_take_eq {P X Y : List Char} {i n : Nat} (h : i + n ≤ P.length) :
    (List.drop i (P ++ X)).take n = (List.drop i (P ++ Y)).take n := by
  rw [List.drop_append_of_le_length (by omega), List.drop_append_of_le_length (by omega)]
  rw [List.take_append_of_le_length (by rw [List.length_drop]; omega),
    List.take_append_of_le_length (by rw [List.length_drop]; omega)]

theorem pref_transfer {p P X Y : List Char} {i : Nat} (h : i + p.length ≤ P.length) :
    p <+: List.drop i (P ++ X) ↔ p <+: List.drop i (P ++ Y) := by
  rw [List.prefix_iff_eq_take, List.prefix_iff_eq_take, @seg_take_eq P X Y i p.length h]

theorem no_overlap_pref {p l : List Char} {i j : Nat}
    (hnol : ∀ d < p.length, 1 ≤ d → ∃ kk < p.length, d + kk < p.length ∧ p[d + kk]? ≠ p[kk]?)
    (hi : p <+: List.drop i l) (hj : p <+: List.drop j l) (hij : i < j)
    (hov : j < i + p.length) : False := by
  obtain ⟨kk, hkk, hdkk, hne⟩ := hnol (j - i) (by omega) (by omega)
  apply hne
  have e1 : (List.drop i l)[(j - i) + kk]? = p[(j - i) + kk]? := prefAgree hi hdkk
  have e2 : (List.drop j l)[kk]? = p[kk]? := prefAgree hj hkk
  rw [List.getElem?_drop] at e1 e2
  rw [← e1, ← e2]
  congr 1
  omega

theorem not_pref_drop_of_mismatch {p C X : List Char} {d : Nat}
    (h : ∃ kk < p.length, d + kk < C.length ∧ C[d + kk]? ≠ p[kk]?) :
    ¬ p <+: List.drop d (C ++ X) := by
  obtain ⟨kk, hkk, hdkk, hne⟩ := h
  apply notPrefOfMismatch hkk
  rw [List.getElem?_drop, List.getElem?_append_left hdkk]
  exact hne

/-! ### Idempotence machinery for the fix_fetch_mocks insertion -/

theorem resetMatch_none_of_not_pref {s : List Char} (h : ¬ resetLit <+: s) :
    resetMatch s = none := by
  have hb : resetLit.isPrefixOf s = false := by
    rw [← Bool.not_eq_true]
    intro hb
    exact h (isPrefixOfIff.mp hb)
  rw [resetMatch, hb]
  simp

theorem resetMatch_none_of_guard {s : List Char}
    (h : wfmLit <+: List.dropWhile isPySpace (s.drop resetLit.length)) :
    resetMatch s = none := by
  have hb : wfmLit.isPrefixOf (List.dropWhile isPySpace (s.drop resetLit.length)) = true :=
    isPrefixOfIff.mpr h
  rw [resetMatch, hb]
  simp

theorem resetMatch_some_of {s : List Char} (hp : resetLit <+: s)
    (hg : ¬ wfmLit <+: List.dropWhile isPySpace (s.drop resetLit.length)) :
    resetMatch s = some (resetLit ++ wrapInsLit, resetLit.length) := by
  have hb1 : resetLit.isPrefixOf s = true := isPrefixOfIff.mpr hp
  have hb2 : wfmLit.isPrefixOf (List.dropWhile isPySpace (s.drop resetLit.length)) = false := by
    rw [← Bool.not_eq_true]
    intro hb
    exact hg (isPrefixOfIff.mp hb)
  rw [resetMatch, hb1, hb2]
  simp

theorem resetMatch_some_elim {s rep : List Char} {k : Nat}
    (h : resetMatch s = some (rep, k)) :
    rep = resetLit ++ wrapInsLit ∧ k = resetLit.length ∧ resetLit <+: s ∧
      ¬ wfmLit <+: List.dropWhile isPySpace (s.drop resetLit.length) := by
  rw [resetMatch] at h
  split at h
  · next hc =>
    rw [Bool.and_eq_true] at hc
    simp only [Option.some.injEq, Prod.mk.injEq] at h
    refine ⟨h.1.symm, h.2.symm, isPrefixOfIff.mp hc.1, ?_⟩
    intro hg
    have hgb := isPrefixOfIff.mpr hg
    rw [hgb] at hc
    simp at hc
  · exact absurd h (by simp)

theorem resetLit_no_overlap : ∀ d < resetLit.length, 1 ≤ d →
    ∃ kk < resetLit.length, d + kk < resetLit.length ∧ resetLit[d + kk]? ≠ resetLit[kk]? := by
  decide

theorem resetRep_no_interior : ∀ d < (resetLit ++ wrapInsLit).length, 1 ≤ d →
    ∃ kk < resetLit.length, d + kk < (resetLit ++ wrapInsLit).length ∧
      (resetLit ++ wrapInsLit)[d + kk]? ≠ resetLit[kk]? := by
  decide

theorem wfm_no_m : ∀ d < wfmLit.length, wfmLit[d]? ≠ some 'm' := by decide

theorem wfm_cons : wfmLit = 'w' :: "rapFetchMock".toList := by decide

theorem wfmFull_cons :
    "wrapFetchMock(mockFetch);".toList = 'w' :: "rapFetchMock(mockFetch);".toList := by decide

theorem wfm_pref_tail :
    wfmLit ++ "(mockFetch);".toList = "wrapFetchMock(mockFetch);".toList := by decide

theorem wrapIns_split :
    wrapInsLit = "\n    ".toList ++ "wrapFetchMock(mockFetch);".toList := by decide

theorem resetMatch_noInterior : NoInterior resetMatch := by
  intro s rep k h d hd1 hdk
  obtain ⟨hrep, hk, hpref, hg⟩ := resetMatch_some_elim h
  subst hk
  apply resetMatch_none_of_not_pref
  intro hp2
  have hpref0 : resetLit <+: List.drop 0 s := by
    rw [List.drop_zero]
    exact hpref
  exact no_overlap_pref resetLit_no_overlap hpref0 hp2 hd1 (by omega)

/-- If the guard of the trigger pattern holds at a position whose whitespace
run and wrapFetchMock occurrence lie inside a segment shared by two texts
(witnessed by a later position carrying the character m that whitespace and
wrapFetchMock cannot contain), then the guard also holds at that position in
the other text. -/
theorem guard_transfer {P B X : List Char} {a q : Nat}
    (haP : a ≤ P.length) (haq : a ≤ q) (hqP : q ≤ P.length)
    (hqm : (P ++ B)[q]? = some 'm')
    (hgin : wfmLit <+: List.dropWhile isPySpace ((P ++ B).drop a)) :
    wfmLit <+: List.dropWhile isPySpace ((P ++ X).drop a) := by
  have hwl : wfmLit.length = 13 := by decide
  have hWub : a + (List.takeWhile isPySpace ((P ++ B).drop a)).length ≤ q := by
    by_contra hcon
    push_neg at hcon
    have hd : q - a < (List.takeWhile isPySpace ((P ++ B).drop a)).length := by omega
    have e1 := prefAgree (takeWhilePref isPySpace ((P ++ B).drop a)) hd
    rw [List.getElem?_drop] at e1
    have harith : a + (q - a) = q := by omega
    rw [harith, hqm] at e1
    have hmem := List.getElem?_mem e1.symm
    have hws := List.mem_takeWhile_imp hmem
    exact absurd hws (by decide)
  have hdw : List.dropWhile isPySpace ((P ++ B).drop a)
      = (P ++ B).drop (a + (List.takeWhile isPySpace ((P ++ B).drop a)).length) := by
    rw [dropWhile_eq_drop, List.drop_drop]
  have hgin2 : wfmLit <+: (P ++ B).drop
      (a + (List.takeWhile isPySpace ((P ++ B).drop a)).length) := by
    rw [← hdw]
    exact hgin
  have hwfmub : a + (List.takeWhile isPySpace ((P ++ B).drop a)).length + wfmLit.length ≤ q := by
    by_contra hcon
    push_neg at hcon
    have hd : q - (a + (List.takeWhile isPySpace ((P ++ B).drop a)).length) < wfmLit.length := by
      omega
    have e1 := prefAgree hgin2 hd
    rw [List.getElem?_drop] at e1
    have harith : a + (List.takeWhile isPySpace ((P ++ B).drop a)).length
        + (q - (a + (List.takeWhile isPySpace ((P ++ B).drop a)).length)) = q := by omega
    rw [harith, hqm] at e1
    exact wfm_no_m _ hd e1.symm
  have hWwfm : List.takeWhile isPySpace ((P ++ B).drop a) ++ wfmLit <+: (P ++ B).drop a := by
    apply prefAppendJoin (takeWhilePref isPySpace ((P ++ B).drop a))
    rw [List.drop_drop]
    exact hgin2
  have hDin : (P ++ B).drop a = P.drop a ++ B := List.drop_append_of_le_length haP
  have hlen2 : (List.takeWhile isPySpace ((P ++ B).drop a) ++ wfmLit).length
      ≤ (P.drop a).length := by
    rw [List.length_append, List.length_drop]
    omega
  have hWwfm2 : List.takeWhile isPySpace ((P ++ B).drop a) ++ wfmLit <+: P.drop a ++ B := by
    rw [← hDin]
    exact hWwfm
  have hWwfmP : List.takeWhile isPySpace ((P ++ B).drop a) ++ wfmLit <+: P.drop a :=
    prefOfAppendLeft hWwfm2 hlen2
  obtain ⟨D2, hD2⟩ := hWwfmP
  have hDout : (P ++ X).drop a = P.drop a ++ X := List.drop_append_of_le_length haP
  have hcomp : List.dropWhile isPySpace
      (List.takeWhile isPySpace ((P ++ B).drop a) ++ (wfmLit ++ (D2 ++ X)))
      = wfmLit ++ (D2 ++ X) := by
    rw [List.dropWhile_append_of_pos (fun c hc => List.mem_takeWhile_imp hc)]
    rw [wfm_cons, List.cons_append, List.dropWhile_cons_of_neg (by decide), ← List.cons_append,
      ← wfm_cons]
  rw [hDout, ← hD2, List.append_assoc, List.append_assoc, hcomp]
  exact ⟨_, rfl⟩

/-- After one first-match step of the insertion scan, no position of the
emitted prefix, insertion and recursively scanned tail matches again. -/
theorem reset_out_step {A B Z : List Char} {j : Nat} (hlA : A.length = j)
    (hminIn : ∀ i, i < j → resetMatch (List.drop i (A ++ resetLit ++ B)) = none)
    (hZ : NoMatches resetMatch Z) :
    NoMatches resetMatch (A ++ resetLit ++ (wrapInsLit ++ Z)) := by
  have hrl : resetLit.length = 22 := by decide
  have hC52 : (resetLit ++ wrapInsLit).length = 52 := by decide
  have hPlen : (A ++ resetLit).length = j + 22 := by rw [List.length_append, hlA, hrl]
  intro i
  rcases Nat.lt_or_ge i j with hij | hij
  · by_cases hpi : resetLit <+: List.drop i (A ++ resetLit ++ (wrapInsLit ++ Z))
    · have hwin : i + resetLit.length ≤ (A ++ resetLit).length := by
        rw [hPlen, hrl]
        omega
      have hpi2 : resetLit <+: List.drop i (A ++ resetLit ++ B) :=
        (@pref_transfer resetLit (A ++ resetLit) (wrapInsLit ++ Z) B i hwin).mp hpi
      have hprefj : resetLit <+: List.drop j (A ++ resetLit ++ B) := by
        have hform : A ++ resetLit ++ B = A ++ (resetLit ++ B) := by
          rw [List.append_assoc]
        rw [hform]
        have hj0 : j = A.length + 0 := by omega
        rw [hj0, List.drop_append, List.drop_zero]
        exact ⟨B, rfl⟩
      rcases Nat.lt_or_ge j (i + 22) with hov | hov
      · exact absurd (no_overlap_pref resetLit_no_overlap hpi2 hprefj hij (by omega)) id
      · have hgin : wfmLit <+: List.dropWhile isPySpace
            ((List.drop i (A ++ resetLit ++ B)).drop resetLit.length) := by
          by_contra hng
          have hsome := resetMatch_some_of hpi2 hng
          rw [hminIn i hij] at hsome
          exact absurd hsome (by simp)
        rw [List.drop_drop] at hgin
        have hmj : ((A ++ resetLit) ++ B)[j]? = some 'm' := by
          have e := @prefAgree resetLit _ hprefj 0 (by rw [hrl]; omega)
          rw [List.getElem?_drop, Nat.add_zero] at e
          rw [e]
          decide
        have hgout := @guard_transfer (A ++ resetLit) B (wrapInsLit ++ Z)
          (i + resetLit.length) j (by omega) (by omega) (by omega) hmj hgin
        apply resetMatch_none_of_guard
        rw [List.drop_drop]
        exact hgout
    · exact resetMatch_none_of_not_pref hpi
  · rcases Nat.lt_or_ge i (j + 52) with hin | hbig
    · rcases Nat.eq_or_lt_of_le hij with hieq | higt
      · have hdropj : List.drop i (A ++ resetLit ++ (wrapInsLit ++ Z))
            = resetLit ++ (wrapInsLit ++ Z) := by
          have hform : A ++ resetLit ++ (wrapInsLit ++ Z)
              = A ++ (resetLit ++ (wrapInsLit ++ Z)) := by
            rw [List.append_assoc]
          rw [hform]
          have hj0 : i = A.length + 0 := by omega
          rw [hj0, List.drop_append, List.drop_zero]
        rw [hdropj]
        apply resetMatch_none_of_guard
        rw [List.drop_left]
        rw [wrapIns_split, List.append_assoc]
        rw [List.dropWhile_append_of_pos (by decide)]
        rw [wfmFull_cons, List.cons_append, List.dropWhile_cons_of_neg (by decide)]
        refine ⟨"(mockFetch);".toList ++ Z, ?_⟩
        rw [← List.append_assoc, wfm_pref_tail, wfmFull_cons, List.cons_append]
      · apply resetMatch_none_of_not_pref
        have hsplit : List.drop i (A ++ resetLit ++ (wrapInsLit ++ Z))
            = List.drop (i - j) ((resetLit ++ wrapInsLit) ++ Z) := by
          have hform : A ++ resetLit ++ (wrapInsLit ++ Z)
              = A ++ ((resetLit ++ wrapInsLit) ++ Z) := by
            simp [List.append_assoc]
          have he : i = A.length + (i - j) := by omega
          calc List.drop i (A ++ resetLit ++ (wrapInsLit ++ Z))
              = List.drop (A.length + (i - j)) (A ++ ((resetLit ++ wrapInsLit) ++ Z)) := by
                rw [hform, ← he]
            _ = List.drop (i - j) ((resetLit ++ wrapInsLit) ++ Z) := List.drop_append _
        rw [hsplit]
        apply not_pref_drop_of_mismatch
        apply resetRep_no_interior
        · rw [hC52]
          omega
        · omega
    · have hform : A ++ resetLit ++ (wrapInsLit ++ Z)
          = (A ++ (resetLit ++ wrapInsLit)) ++ Z := by
        simp [List.append_assoc]
      have hlen2 : (A ++ (resetLit ++ wrapInsLit)).length = j + 52 := by
        rw [List.length_append, hlA, hC52]
      have hsp : List.drop i (A ++ resetLit ++ (wrapInsLit ++ Z))
          = List.drop (i - (j + 52)) Z := by
        have he : i = (A ++ (resetLit ++ wrapInsLit)).length + (i - (j + 52)) := by
          rw [hlen2]
          omega
        calc List.drop i (A ++ resetLit ++ (wrapInsLit ++ Z))
            = List.drop ((A ++ (resetLit ++ wrapInsLit)).length + (i - (j + 52)))
              ((A ++ (resetLit ++ wrapInsLit)) ++ Z) := by
              rw [hform, ← he]
          _ = List.drop (i - (j + 52)) Z := List.drop_append _
      rw [hsp]
      exact hZ _

/-- The output of the fix_fetch_mocks insertion pass contains no position at
which the guarded trigger pattern still matches. -/
theorem resetSub_noMatches : ∀ l, NoMatches resetMatch (resetSub l) := by
  have main : ∀ n l, l.length ≤ n → NoMatches resetMatch (subScan resetMatch l) := by
    intro n
    induction n with
    | zero =>
      intro l hl
      have hnil : l = [] := List.length_eq_zero.mp (Nat.le_zero.mp hl)
      subst hnil
      rw [subScan_nil]
      intro j
      rw [List.drop_nil]
      exact matcher_nil_none resetMatch_consumes
    | succ n ih =>
      intro l hl
      rcases subScan_first resetMatch_consumes l with ⟨hnm, heq⟩ | ⟨j, rep, k, hj, hmin, hle, heq⟩
      · rw [heq]
        exact hnm
      · obtain ⟨hrep, hk, hpref, hguard⟩ := resetMatch_some_elim hj
        subst hrep
        subst hk
        have hrl : resetLit.length = 22 := by decide
        have hlA : (List.take j l).length = j := by
          rw [List.length_take]
          omega
        have hdropj : List.drop j l = resetLit ++ List.drop (j + resetLit.length) l := by
          obtain ⟨t, ht⟩ := hpref
          have ht2 : t = List.drop (j + resetLit.length) l := by
            have h3 : (List.drop j l).drop resetLit.length = t := by
              rw [← ht, List.drop_left]
            rw [← h3, List.drop_drop]
          rw [← ht, ht2]
        have hP : l = List.take j l ++ resetLit ++ List.drop (j + resetLit.length) l := by
          rw [List.append_assoc, ← hdropj, List.take_append_drop]
        have hZlen : (List.drop (j + resetLit.length) l).length ≤ n := by
          rw [List.length_drop]
          omega
        have hIH : NoMatches resetMatch (subScan resetMatch (List.drop (j + resetLit.length) l)) :=
          ih _ hZlen
        rw [heq]
        have hout : List.take j l ++ (resetLit ++ wrapInsLit)
              ++ subScan resetMatch (List.drop (j + resetLit.length) l)
            = List.take j l ++ resetLit
              ++ (wrapInsLit ++ subScan resetMatch (List.drop (j + resetLit.length) l)) := by
          simp [List.append_assoc]
        rw [hout]
        have hminIn : ∀ i, i < j → resetMatch (List.drop i
            (List.take j l ++ resetLit ++ List.drop (j + resetLit.length) l)) = none := by
          intro i hi
          rw [← hP]
          exact hmin i hi
        exact reset_out_step hlA hminIn hIH
  intro l
  exact main l.length l (Nat.le_refl _)

/-- The fix_fetch_mocks insertion pass is idempotent. -/
theorem resetSub_idem (l : List Char) : resetSub (resetSub l) = resetSub l :=
  subScan_eq_self_of_onlyId resetMatch_consumes _ (noMatches_onlyId (resetSub_noMatches l))

/-- Claim C5: a content containing mockFetch.mockReset(); not already
followed (after whitespace) by wrapFetchMock gets the wrapFetchMock call
inserted right after the matched text, and re-running the rule on the
output produces no further change. -/
theorem C5_insertion (l A B : List Char) (hl : l = A ++ resetLit ++ B)
    (hguard : ¬ wfmLit <+: List.dropWhile isPySpace B) :
    (∃ u, resetSub l = u ++ (resetLit ++ wrapInsLit) ++ resetSub B) ∧
    resetSub (resetSub l) = resetSub l := by
  subst hl
  constructor
  · have hdropA : List.drop A.length (A ++ resetLit ++ B) = resetLit ++ B := by
      rw [List.append_assoc]
      exact List.drop_left _ _
    have hm : resetMatch (List.drop A.length (A ++ resetLit ++ B))
        = some (resetLit ++ wrapInsLit, resetLit.length) := by
      rw [hdropA]
      apply resetMatch_some_of ⟨B, rfl⟩
      rw [List.drop_left]
      exact hguard
    obtain ⟨u, hu⟩ := subScan_hits resetMatch_consumes resetMatch_noInterior _ _ _ _ hm
    refine ⟨u, ?_⟩
    have hdrop2 : List.drop (A.length + resetLit.length) (A ++ resetLit ++ B) = B := by
      have hlen : (A ++ resetLit).length = A.length + resetLit.length := List.length_append _ _
      rw [← hlen, List.drop_left]
    rw [hdrop2] at hu
    exact hu
  · exact resetSub_idem _

/-- Witness for C5: content consisting of just the trigger line. -/
theorem C5_insertion_witness :
    (∃ u, resetSub resetLit = u ++ (resetLit ++ wrapInsLit) ++ resetSub []) ∧
    resetSub (resetSub resetLit) = resetSub resetLit :=
  C5_insertion resetLit [] [] (by simp) (by decide)

/-! ### Idempotence machinery for the fix_mock_responses wrapping -/

theorem wrapMatch_none_of_not_pref {pre s : List Char} (h : ¬ pre <+: s) :
    wrapMatch pre s = none := by
  have hb : pre.isPrefixOf s = false := by
    rw [← Bool.not_eq_true]
    intro hb
    exact h (isPrefixOfIff.mp hb)
  simp [wrapMatch, hb]

theorem wrapMatch_none_of_empty_run {pre s : List Char}
    (h : List.takeWhile isIdChar (s.drop pre.length) = []) :
    wrapMatch pre s = none := by
  simp [wrapMatch, h]

theorem parr_cons : parrLit = ')' :: ')' :: [] := by decide

theorem wrapMatch_some_elim {pre s rep : List Char} {k : Nat}
    (h : wrapMatch pre s = some (rep, k)) :
    s = pre ++ (List.takeWhile isIdChar (s.drop pre.length)
        ++ (parrLit ++ (s.drop pre.length).drop
            ((List.takeWhile isIdChar (s.drop pre.length)).length + parrLit.length))) ∧
    List.takeWhile isIdChar (s.drop pre.length) ≠ [] ∧
    isIdStart ((List.takeWhile isIdChar (s.drop pre.length)).headD ' ') = true ∧
    rep = wrapRep pre (List.takeWhile isIdChar (s.drop pre.length)) ∧
    k = pre.length + (List.takeWhile isIdChar (s.drop pre.length)).length + 2 := by
  simp only [wrapMatch] at h
  by_cases hp : pre.isPrefixOf s = true
  · rw [if_pos hp] at h
    by_cases hc : (!(List.takeWhile isIdChar (s.drop pre.length)).isEmpty
        && isIdStart ((List.takeWhile isIdChar (s.drop pre.length)).headD ' ')
        && parrLit.isPrefixOf ((s.drop pre.length).drop
            (List.takeWhile isIdChar (s.drop pre.length)).length)) = true
    · rw [if_pos hc] at h
      simp only [Option.some.injEq, Prod.mk.injEq] at h
      obtain ⟨h1, h2⟩ := h
      rw [Bool.and_eq_true, Bool.and_eq_true] at hc
      obtain ⟨⟨hne0, hstart⟩, hparr⟩ := hc
      have hne : List.takeWhile isIdChar (s.drop pre.length) ≠ [] := by
        intro hnil
        rw [hnil] at hne0
        simp at hne0
      have hs1 : s = pre ++ s.drop pre.length := by
        obtain ⟨t, ht⟩ := isPrefixOfIff.mp hp
        rw [← ht, List.drop_left]
      have hs2 : s.drop pre.length
          = List.takeWhile isIdChar (s.drop pre.length)
            ++ (s.drop pre.length).drop (List.takeWhile isIdChar (s.drop pre.length)).length := by
        rw [← dropWhile_eq_drop, List.takeWhile_append_dropWhile]
      have hs3 : (s.drop pre.length).drop (List.takeWhile isIdChar (s.drop pre.length)).length
          = parrLit ++ (s.drop pre.length).drop
              ((List.takeWhile isIdChar (s.drop pre.length)).length + parrLit.length) := by
        rw [← List.drop_drop]
        obtain ⟨t, ht⟩ := isPrefixOfIff.mp hparr
        rw [← ht, List.drop_left]
      refine ⟨?_, hne, hstart, h1.symm, h2.symm⟩
      conv_lhs => rw [hs1, hs2, hs3]
    · rw [if_neg hc] at h
      exact absurd h (by simp)
  · rw [if_neg hp] at h
    exact absurd h (by simp)

theorem wrapMatch_some_of {pre idt B : List Char}
    (hne : idt ≠ []) (hstart : isIdStart (idt.headD ' ') = true)
    (hall : ∀ c ∈ idt, isIdChar c = true) :
    wrapMatch pre (pre ++ (idt ++ (parrLit ++ B)))
      = some (wrapRep pre idt, pre.length + idt.length + 2) := by
  have hafter : (pre ++ (idt ++ (parrLit ++ B))).drop pre.length = idt ++ (parrLit ++ B) :=
    List.drop_left _ _
  have hrun : List.takeWhile isIdChar (idt ++ (parrLit ++ B)) = idt := by
    rw [List.takeWhile_append_of_pos hall, parr_cons]
    rw [List.cons_append, List.takeWhile_cons_of_neg (by decide)]
    rw [List.append_nil]
  have hdropidt : (idt ++ (parrLit ++ B)).drop idt.length = parrLit ++ B :=
    List.drop_left _ _
  have hprefb : pre.isPrefixOf (pre ++ (idt ++ (parrLit ++ B))) = true :=
    isPrefixOfIff.mpr ⟨_, rfl⟩
  simp only [wrapMatch, hafter, hrun, hdropidt, hprefb, if_pos]
  have hne0 : idt.isEmpty = false := by
    cases idt with
    | nil => exact absurd rfl hne
    | cons c t => rfl
  have hparrpref : parrLit.isPrefixOf (parrLit ++ B) = true := isPrefixOfIff.mpr ⟨_, rfl⟩
  rw [hne0, hstart, hparrpref]
  simp

/-- An identity-matches-only property restricts to any suffix. -/
theorem onlyId_drop {m : List Char → Option (List Char × Nat)} {l : List Char}
    (h : OnlyIdMatches m l) (n : Nat) : OnlyIdMatches m (List.drop n l) := by
  intro j rep k hj
  have hdd : List.drop j (List.drop n l) = List.drop (n + j) l := by
    rw [List.drop_drop]
  rw [hdd] at hj
  have := h (n + j) rep k hj
  rw [← hdd] at this
  exact this

/-- Two pattern occurrences at overlapping positions are impossible when the
first pattern disagrees with the second at every shift. -/
theorem no_overlap_cross {p q l : List Char} {i j : Nat}
    (hnol : ∀ d, 1 ≤ d → d < p.length → ∃ u, u < q.length ∧ d + u < p.length ∧ p[d+u]? ≠ q[u]?)
    (hi : p <+: List.drop i l) (hj : q <+: List.drop j l) (hij : i < j)
    (hov : j < i + p.length) : False := by
  obtain ⟨u, hu, hdu, hne⟩ := hnol (j - i) (by omega) (by omega)
  apply hne
  have e1 : (List.drop i l)[(j - i) + u]? = p[(j - i) + u]? := prefAgree hi hdu
  have e2 : (List.drop j l)[u]? = q[u]? := prefAgree hj hu
  rw [List.getElem?_drop] at e1 e2
  rw [← e1, ← e2]
  congr 1
  omega

/-- The wrapMatch matcher only inspects the consumed region: a match carries
over to any string sharing that region. -/
theorem wrapMatch_congr {pre s s2 rep : List Char} {k : Nat}
    (hm : wrapMatch pre s = some (rep, k)) (ht : s.take k = s2.take k) :
    wrapMatch pre s2 = some (rep, k) := by
  obtain ⟨hdec, hne, hstart, hrep, hk⟩ := wrapMatch_some_elim hm
  have hparr2 : parrLit.length = 2 := by decide
  have hlen : (pre ++ (List.takeWhile isIdChar (s.drop pre.length) ++ parrLit)).length = k := by
    rw [List.length_append, List.length_append]
    omega
  have hs' : s = (pre ++ (List.takeWhile isIdChar (s.drop pre.length) ++ parrLit))
      ++ (s.drop pre.length).drop
        ((List.takeWhile isIdChar (s.drop pre.length)).length + parrLit.length) := by
    conv_lhs => rw [hdec]
    simp [List.append_assoc]
  have htk : s.take k = pre ++ (List.takeWhile isIdChar (s.drop pre.length) ++ parrLit) := by
    conv_lhs => rw [hs']
    rw [← hlen, List.take_left]
  have hs2form : s2 = pre ++ (List.takeWhile isIdChar (s.drop pre.length)
      ++ (parrLit ++ s2.drop k)) := by
    conv_lhs => rw [← List.take_append_drop k s2, ← ht, htk]
    simp [List.append_assoc]
  have hall : ∀ c ∈ List.takeWhile isIdChar (s.drop pre.length), isIdChar c = true :=
    fun c hc => List.mem_takeWhile_imp hc
  have := @wrapMatch_some_of pre (List.takeWhile isIdChar (s.drop pre.length)) (s2.drop k)
    hne hstart hall
  rw [← hs2form] at this
  rw [this, hrep, hk]

/-! ### Character facts about the two pattern literals -/

theorem lit1_len : lit1.length = 47 := by decide

theorem lit2_len : lit2.length = 35 := by decide

theorem lit1_dot : lit1[9]? = some '.' := by decide

theorem lit2_dot : lit2[7]? = some '.' := by decide

theorem lit1_dot_uniq : ∀ u, u < lit1.length → u ≠ 9 → lit1[u]? ≠ some '.' := by decide

theorem lit2_dot_uniq : ∀ u, u < lit2.length → u ≠ 7 → lit2[u]? ≠ some '.' := by decide

theorem lit1_no_comma : ∀ u, u < lit1.length → lit1[u]? ≠ some ',' := by decide

theorem lit2_no_comma : ∀ u, u < lit2.length → lit2[u]? ≠ some ',' := by decide

theorem lit1_next_dot : lit1[10]? ≠ some 'l' := by decide

theorem lit2_next_dot : lit2[8]? ≠ some 'l' := by decide

theorem lit1_no_paren : ∀ u, u < lit1.length → lit1[u]? ≠ some ')' := by decide

theorem lit2_no_paren : ∀ u, u < lit2.length → lit2[u]? ≠ some ')' := by decide

theorem idchar_dot : isIdChar '.' = false := by decide

set_option maxRecDepth 40000

theorem cross_11 : ∀ d, 1 ≤ d → d < lit1.length →
    ∃ u, u < lit1.length ∧ d + u < lit1.length ∧ lit1[d+u]? ≠ lit1[u]? := by decide

theorem cross_22 : ∀ d, 1 ≤ d → d < lit2.length →
    ∃ u, u < lit2.length ∧ d + u < lit2.length ∧ lit2[d+u]? ≠ lit2[u]? := by decide

theorem cross_12 : ∀ d, 1 ≤ d → d < lit1.length →
    ∃ u, u < lit2.length ∧ d + u < lit1.length ∧ lit1[d+u]? ≠ lit2[u]? := by decide

theorem cross_21 : ∀ d, 1 ≤ d → d < lit2.length →
    ∃ u, u < lit1.length ∧ d + u < lit2.length ∧ lit2[d+u]? ≠ lit1[u]? := by decide

theorem s0_t1_p1 : ∀ d, 1 ≤ d → d < (lit1 ++ midALit).length →
    ∃ u, u < lit1.length ∧ d + u < (lit1 ++ midALit).length ∧
      (lit1 ++ midALit)[d+u]? ≠ lit1[u]? := by decide

theorem s0_t2_p2 : ∀ d, 1 ≤ d → d < (lit2 ++ midALit).length →
    ∃ u, u < lit2.length ∧ d + u < (lit2 ++ midALit).length ∧
      (lit2 ++ midALit)[d+u]? ≠ lit2[u]? := by decide

theorem s0_t2_p1 : ∀ d, 1 ≤ d → d < (lit2 ++ midALit).length →
    ∃ u, u < lit1.length ∧ d + u < (lit2 ++ midALit).length ∧
      (lit2 ++ midALit)[d+u]? ≠ lit1[u]? := by decide

theorem s0_t1_p2 : ∀ d, 1 ≤ d → d < (lit1 ++ midALit).length →
    ∃ u, u < lit2.length ∧ d + u < (lit1 ++ midALit).length ∧
      (lit1 ++ midALit)[d+u]? ≠ lit2[u]? := by decide

theorem mb_p1 : ∀ e, e < midBLit.length →
    ∃ u, u < lit1.length ∧ e + u < midBLit.length ∧ midBLit[e+u]? ≠ lit1[u]? := by decide

theorem mb_p2 : ∀ e, e < midBLit.length →
    ∃ u, u < lit2.length ∧ e + u < midBLit.length ∧ midBLit[e+u]? ≠ lit2[u]? := by decide

theorem mc_p1 : ∀ e, e < midCLit.length →
    ∃ u, u < lit1.length ∧ e + u < midCLit.length ∧ midCLit[e+u]? ≠ lit1[u]? := by decide

theorem mc_p2 : ∀ e, e < midCLit.length →
    ∃ u, u < lit2.length ∧ e + u < midCLit.length ∧ midCLit[e+u]? ≠ lit2[u]? := by decide

theorem idc_1n_p1 : ∀ d, 1 ≤ d → d < (lit1 ++ nullLit ++ parrLit).length →
    ∃ u, u < lit1.length ∧ d + u < (lit1 ++ nullLit ++ parrLit).length ∧
      (lit1 ++ nullLit ++ parrLit)[d+u]? ≠ lit1[u]? := by decide

theorem idc_1u_p1 : ∀ d, 1 ≤ d → d < (lit1 ++ undefLit ++ parrLit).length →
    ∃ u, u < lit1.length ∧ d + u < (lit1 ++ undefLit ++ parrLit).length ∧
      (lit1 ++ undefLit ++ parrLit)[d+u]? ≠ lit1[u]? := by decide

theorem idc_2n_p2 : ∀ d, 1 ≤ d → d < (lit2 ++ nullLit ++ parrLit).length →
    ∃ u, u < lit2.length ∧ d + u < (lit2 ++ nullLit ++ parrLit).length ∧
      (lit2 ++ nullLit ++ parrLit)[d+u]? ≠ lit2[u]? := by decide

theorem idc_2u_p2 : ∀ d, 1 ≤ d → d < (lit2 ++ undefLit ++ parrLit).length →
    ∃ u, u < lit2.length ∧ d + u < (lit2 ++ undefLit ++ parrLit).length ∧
      (lit2 ++ undefLit ++ parrLit)[d+u]? ≠ lit2[u]? := by decide

theorem idc_2n_p1 : ∀ d, 1 ≤ d → d < (lit2 ++ nullLit ++ parrLit).length →
    ∃ u, u < lit1.length ∧ d + u < (lit2 ++ nullLit ++ parrLit).length ∧
      (lit2 ++ nullLit ++ parrLit)[d+u]? ≠ lit1[u]? := by decide

theorem idc_2u_p1 : ∀ d, 1 ≤ d → d < (lit2 ++ undefLit ++ parrLit).length →
    ∃ u, u < lit1.length ∧ d + u < (lit2 ++ undefLit ++ parrLit).length ∧
      (lit2 ++ undefLit ++ parrLit)[d+u]? ≠ lit1[u]? := by decide

/-- A dot inside the identifier-character region of a match is absurd. -/
theorem dot_in_run_absurd {pp idt rest : List Char} {e dp : Nat}
    (hall : ∀ c ∈ idt, isIdChar c = true)
    (hdp : dp < pp.length) (hdot : pp[dp]? = some '.')
    (hlt : dp < idt.length - e)
    (hpref : pp <+: idt.drop e ++ rest) : False := by
  have hlen : (idt.drop e).length = idt.length - e := by rw [List.length_drop]
  have h1 := prefAgree hpref hdp
  rw [List.getElem?_append_left (by rw [hlen]; omega), hdot] at h1
  have hmem : '.' ∈ idt.drop e := List.getElem?_mem h1
  have := hall '.' (List.mem_of_mem_drop hmem)
  exact absurd this (by decide)

/-- The pattern literal cannot start inside an identifier run that is closed
by a character the pattern does not contain. -/
theorem not_pref_run_stop {pp idt rest : List Char} {e dp : Nat} {c0 : Char}
    (hall : ∀ c ∈ idt, isIdChar c = true) (he : e < idt.length)
    (hdp : dp < pp.length) (hdot : pp[dp]? = some '.')
    (hnc : ∀ u, u < pp.length → pp[u]? ≠ some c0)
    (hr0 : rest[0]? = some c0) :
    ¬ pp <+: idt.drop e ++ rest := by
  intro hpref
  have hlen : (idt.drop e).length = idt.length - e := by rw [List.length_drop]
  rcases Nat.lt_or_ge dp (idt.length - e) with hlt | hge
  · exact dot_in_run_absurd hall hdp hdot hlt hpref
  · have hrlt : idt.length - e < pp.length := by omega
    have h1 := prefAgree hpref hrlt
    rw [List.getElem?_append_right hlen.le, hlen, Nat.sub_self, hr0] at h1
    exact hnc _ hrlt h1.symm

/-- The pattern literal cannot start inside an identifier run that is closed
by the dot-then-l of the envelope tail. -/
theorem not_pref_run_dot {pp idt rest : List Char} {e dp : Nat}
    (hall : ∀ c ∈ idt, isIdChar c = true) (he : e < idt.length)
    (hdp1 : dp + 1 < pp.length) (hdot : pp[dp]? = some '.')
    (huniq : ∀ u, u < pp.length → u ≠ dp → pp[u]? ≠ some '.')
    (hnext : pp[dp+1]? ≠ some 'l')
    (hr0 : rest[0]? = some '.') (hr1 : rest[1]? = some 'l') :
    ¬ pp <+: idt.drop e ++ rest := by
  intro hpref
  have hlen : (idt.drop e).length = idt.length - e := by rw [List.length_drop]
  rcases Nat.lt_trichotomy dp (idt.length - e) with hlt | heq | hgt
  · exact dot_in_run_absurd hall (by omega) hdot hlt hpref
  · have h1 := prefAgree hpref hdp1
    rw [List.getElem?_append_right (by omega), hlen] at h1
    have harith : dp + 1 - (idt.length - e) = 1 := by omega
    rw [harith, hr1] at h1
    exact hnext h1.symm
  · have hrlt : idt.length - e < pp.length := by omega
    have h1 := prefAgree hpref hrlt
    rw [List.getElem?_append_right hlen.le, hlen, Nat.sub_self, hr0] at h1
    exact huniq _ hrlt (by omega) h1.symm

/-- Both branches of the replacement start with the pattern's literal. -/
theorem wrapRep_pref (pre idt : List Char) : pre <+: wrapRep pre idt := by
  rw [wrapRep]
  split
  · exact ⟨idt ++ parrLit, by simp [List.append_assoc]⟩
  · exact ⟨midALit ++ idt ++ midBLit ++ idt ++ midCLit, by simp [List.append_assoc]⟩

/-- For a captured identifier, the identity branch of the replacement means
the identifier is null or undefined. -/
theorem wrapRep_id_cases {idt : List Char}
    (hstart : isIdStart (idt.headD ' ') = true)
    (hcond : (idt == nullLit || idt == undefLit || idt.headD ' ' == '\x7b') = true) :
    idt = nullLit ∨ idt = undefLit := by
  rw [Bool.or_eq_true, Bool.or_eq_true] at hcond
  rcases hcond with hc | hc
  · rcases hc with hc | hc
    · exact Or.inl (eq_of_beq hc)
    · exact Or.inr (eq_of_beq hc)
  · have hh : idt.headD ' ' = '\x7b' := eq_of_beq hc
    rw [hh] at hstart
    exact absurd hstart (by decide)

/-- No position strictly inside the emitted replacement matches the pattern
literal pp, given the character facts relating pp to the replacement's
pieces. -/
theorem wrapRep_interior_none {pp ps idt : List Char} {dp : Nat} (Z : List Char)
    (hstart : isIdStart (idt.headD ' ') = true)
    (hall : ∀ c ∈ idt, isIdChar c = true)
    (hdp1 : dp + 1 < pp.length) (hdot : pp[dp]? = some '.')
    (huniq : ∀ u, u < pp.length → u ≠ dp → pp[u]? ≠ some '.')
    (hnext : pp[dp+1]? ≠ some 'l')
    (hnc : ∀ u, u < pp.length → pp[u]? ≠ some ',')
    (hs0 : ∀ d, 1 ≤ d → d < (ps ++ midALit).length → ∃ u, u < pp.length ∧
      d + u < (ps ++ midALit).length ∧ (ps ++ midALit)[d+u]? ≠ pp[u]?)
    (hmb : ∀ e, e < midBLit.length → ∃ u, u < pp.length ∧ e + u < midBLit.length ∧
      midBLit[e+u]? ≠ pp[u]?)
    (hmc : ∀ e, e < midCLit.length → ∃ u, u < pp.length ∧ e + u < midCLit.length ∧
      midCLit[e+u]? ≠ pp[u]?)
    (hidn : ∀ d, 1 ≤ d → d < (ps ++ nullLit ++ parrLit).length → ∃ u, u < pp.length ∧
      d + u < (ps ++ nullLit ++ parrLit).length ∧ (ps ++ nullLit ++ parrLit)[d+u]? ≠ pp[u]?)
    (hidu : ∀ d, 1 ≤ d → d < (ps ++ undefLit ++ parrLit).length → ∃ u, u < pp.length ∧
      d + u < (ps ++ undefLit ++ parrLit).length ∧ (ps ++ undefLit ++ parrLit)[d+u]? ≠ pp[u]?) :
    ∀ d, 1 ≤ d → d < (wrapRep ps idt).length →
      wrapMatch pp (List.drop d (wrapRep ps idt ++ Z)) = none := by
  intro d hd1 hd2
  apply wrapMatch_none_of_not_pref
  by_cases hcond : (idt == nullLit || idt == undefLit || idt.headD ' ' == '\x7b') = true
  · have hwr : wrapRep ps idt = ps ++ idt ++ parrLit := by rw [wrapRep, if_pos hcond]
    rcases wrapRep_id_cases hstart hcond with hn | hn
    · subst hn
      rw [hwr] at hd2 ⊢
      exact not_pref_drop_of_mismatch (hidn d hd1 hd2)
    · subst hn
      rw [hwr] at hd2 ⊢
      exact not_pref_drop_of_mismatch (hidu d hd1 hd2)
  · have hwr : wrapRep ps idt
        = ps ++ midALit ++ idt ++ midBLit ++ idt ++ midCLit := by
      rw [wrapRep, if_neg hcond]
    have hWlen : (wrapRep ps idt).length = (ps ++ midALit).length + idt.length
        + midBLit.length + idt.length + midCLit.length := by
      rw [hwr]
      simp only [List.length_append]
    rw [hwr]
    rw [hWlen] at hd2
    have h1 : ps ++ midALit ++ idt ++ midBLit ++ idt ++ midCLit ++ Z
        = (ps ++ midALit) ++ (idt ++ (midBLit ++ (idt ++ (midCLit ++ Z)))) := by
      simp [List.append_assoc]
    have h2 : ps ++ midALit ++ idt ++ midBLit ++ idt ++ midCLit ++ Z
        = ((ps ++ midALit) ++ idt) ++ (midBLit ++ (idt ++ (midCLit ++ Z))) := by
      simp [List.append_assoc]
    have h3 : ps ++ midALit ++ idt ++ midBLit ++ idt ++ midCLit ++ Z
        = (((ps ++ midALit) ++ idt) ++ midBLit) ++ (idt ++ (midCLit ++ Z)) := by
      simp [List.append_assoc]
    have h4 : ps ++ midALit ++ idt ++ midBLit ++ idt ++ midCLit ++ Z
        = ((((ps ++ midALit) ++ idt) ++ midBLit) ++ idt) ++ (midCLit ++ Z) := by
      simp [List.append_assoc]
    rcases Nat.lt_or_ge d (ps ++ midALit).length with hc1 | hc1
    · rw [h1]
      exact not_pref_drop_of_mismatch (hs0 d hd1 hc1)
    · rcases Nat.lt_or_ge d ((ps ++ midALit).length + idt.length) with hc2 | hc2
      · have hde : d = (ps ++ midALit).length + (d - (ps ++ midALit).length) := by omega
        have hdrop : List.drop d (ps ++ midALit ++ idt ++ midBLit ++ idt ++ midCLit ++ Z)
            = idt.drop (d - (ps ++ midALit).length)
              ++ (midBLit ++ (idt ++ (midCLit ++ Z))) := by
          calc List.drop d (ps ++ midALit ++ idt ++ midBLit ++ idt ++ midCLit ++ Z)
              = List.drop ((ps ++ midALit).length + (d - (ps ++ midALit).length))
                  ((ps ++ midALit) ++ (idt ++ (midBLit ++ (idt ++ (midCLit ++ Z))))) := by
                rw [h1, ← hde]
            _ = List.drop (d - (ps ++ midALit).length)
                  (idt ++ (midBLit ++ (idt ++ (midCLit ++ Z)))) := List.drop_append _
            _ = idt.drop (d - (ps ++ midALit).length)
                  ++ (midBLit ++ (idt ++ (midCLit ++ Z))) :=
              List.drop_append_of_le_length (by omega)
        rw [hdrop]
        exact @not_pref_run_stop pp idt (midBLit ++ (idt ++ (midCLit ++ Z)))
          (d - (ps ++ midALit).length) dp ',' hall (by omega) (by omega) hdot hnc
          (by rw [List.getElem?_append_left (by decide)]; decide)
      · rcases Nat.lt_or_ge d ((ps ++ midALit).length + idt.length + midBLit.length)
          with hc3 | hc3
        · have hll : ((ps ++ midALit) ++ idt).length
              = (ps ++ midALit).length + idt.length := List.length_append _ _
          have hde : d = ((ps ++ midALit) ++ idt).length
              + (d - ((ps ++ midALit).length + idt.length)) := by rw [hll]; omega
          have hdrop : List.drop d (ps ++ midALit ++ idt ++ midBLit ++ idt ++ midCLit ++ Z)
              = List.drop (d - ((ps ++ midALit).length + idt.length))
                  (midBLit ++ (idt ++ (midCLit ++ Z))) := by
            calc List.drop d (ps ++ midALit ++ idt ++ midBLit ++ idt ++ midCLit ++ Z)
                = List.drop (((ps ++ midALit) ++ idt).length
                    + (d - ((ps ++ midALit).length + idt.length)))
                    (((ps ++ midALit) ++ idt) ++ (midBLit ++ (idt ++ (midCLit ++ Z)))) := by
                  rw [h2, ← hde]
              _ = List.drop (d - ((ps ++ midALit).length + idt.length))
                    (midBLit ++ (idt ++ (midCLit ++ Z))) := List.drop_append _
          rw [hdrop]
          exact not_pref_drop_of_mismatch (hmb _ (by omega))
        · rcases Nat.lt_or_ge d
            ((ps ++ midALit).length + idt.length + midBLit.length + idt.length)
            with hc4 | hc4
          · have hll : (((ps ++ midALit) ++ idt) ++ midBLit).length
                = (ps ++ midALit).length + idt.length + midBLit.length := by
              simp only [List.length_append]
            have hde : d = (((ps ++ midALit) ++ idt) ++ midBLit).length
                + (d - ((ps ++ midALit).length + idt.length + midBLit.length)) := by
              rw [hll]; omega
            have hdrop : List.drop d (ps ++ midALit ++ idt ++ midBLit ++ idt ++ midCLit ++ Z)
                = idt.drop (d - ((ps ++ midALit).length + idt.length + midBLit.length))
                  ++ (midCLit ++ Z) := by
              calc List.drop d (ps ++ midALit ++ idt ++ midBLit ++ idt ++ midCLit ++ Z)
                  = List.drop ((((ps ++ midALit) ++ idt) ++ midBLit).length
                      + (d - ((ps ++ midALit).length + idt.length + midBLit.length)))
                      ((((ps ++ midALit) ++ idt) ++ midBLit) ++ (idt ++ (midCLit ++ Z))) := by
                    rw [h3, ← hde]
                _ = List.drop (d - ((ps ++ midALit).length + idt.length + midBLit.length))
                      (idt ++ (midCLit ++ Z)) := List.drop_append _
                _ = idt.drop (d - ((ps ++ midALit).length + idt.length + midBLit.length))
                      ++ (midCLit ++ Z) := List.drop_append_of_le_length (by omega)
            rw [hdrop]
            exact @not_pref_run_dot pp idt (midCLit ++ Z)
              (d - ((ps ++ midALit).length + idt.length + midBLit.length)) dp hall
              (by omega) hdp1 hdot huniq hnext
              (by rw [List.getElem?_append_left (by decide)]; decide)
              (by rw [List.getElem?_append_left (by decide)]; decide)
          · have hll : ((((ps ++ midALit) ++ idt) ++ midBLit) ++ idt).length
                = (ps ++ midALit).length + idt.length + midBLit.length + idt.length := by
              simp only [List.length_append]
            have hde : d = ((((ps ++ midALit) ++ idt) ++ midBLit) ++ idt).length
                + (d - ((ps ++ midALit).length + idt.length + midBLit.length
                    + idt.length)) := by
              rw [hll]; omega
            have hdrop : List.drop d (ps ++ midALit ++ idt ++ midBLit ++ idt ++ midCLit ++ Z)
                = List.drop (d - ((ps ++ midALit).length + idt.length + midBLit.length
                    + idt.length)) (midCLit ++ Z) := by
              calc List.drop d (ps ++ midALit ++ idt ++ midBLit ++ idt ++ midCLit ++ Z)
                  = List.drop (((((ps ++ midALit) ++ idt) ++ midBLit) ++ idt).length
                      + (d - ((ps ++ midALit).length + idt.length + midBLit.length
                          + idt.length)))
                      (((((ps ++ midALit) ++ idt) ++ midBLit) ++ idt) ++ (midCLit ++ Z)) := by
                    rw [h4, ← hde]
                _ = List.drop (d - ((ps ++ midALit).length + idt.length + midBLit.length
                      + idt.length)) (midCLit ++ Z) := List.drop_append _
            rw [hdrop]
            exact not_pref_drop_of_mismatch (hmc _ (by omega))

/-- A head-character mismatch kills the matcher. -/
theorem wrapMatch_none_head {pp ps : List Char} (X : List Char) {a b : Char}
    (hps : ps[0]? = some a) (hpp : pp[0]? = some b) (hab : a ≠ b) :
    wrapMatch pp (ps ++ X) = none := by
  apply wrapMatch_none_of_not_pref
  have hlen : 0 < pp.length := by
    cases pp with
    | nil => simp at hpp
    | cons c t => simp
  apply notPrefOfMismatch hlen
  rw [hpp]
  have h0 : (ps ++ X)[0]? = some a := by
    have hl : 0 < ps.length := by
      cases ps with
      | nil => simp at hps
      | cons c t => simp
    rw [List.getElem?_append_left hl]
    exact hps
  rw [h0]
  intro hcon
  rw [Option.some.injEq] at hcon
  exact hab hcon

/-- Any match of the scanning pattern at the replacement it just emitted is an
identity match. -/
theorem wrap_self_j0 {ps idt : List Char} (Z : List Char)
    (hne : idt ≠ []) (hstart : isIdStart (idt.headD ' ') = true)
    (hall : ∀ c ∈ idt, isIdChar c = true) :
    ∀ rep k, wrapMatch ps (wrapRep ps idt ++ Z) = some (rep, k) →
      rep = List.take k (wrapRep ps idt ++ Z) := by
  intro rep k h
  by_cases hcond : (idt == nullLit || idt == undefLit || idt.headD ' ' == '\x7b') = true
  · have hwr : wrapRep ps idt = ps ++ idt ++ parrLit := by rw [wrapRep, if_pos hcond]
    have hform : wrapRep ps idt ++ Z = ps ++ (idt ++ (parrLit ++ Z)) := by
      rw [hwr]
      simp [List.append_assoc]
    have hm := @wrapMatch_some_of ps idt Z hne hstart hall
    rw [← hform] at hm
    rw [hm] at h
    simp only [Option.some.injEq, Prod.mk.injEq] at h
    obtain ⟨h1, h2⟩ := h
    subst h1
    subst h2
    rw [hwr]
    have hp2 : parrLit.length = 2 := by decide
    have hlen : (ps ++ idt ++ parrLit).length = ps.length + idt.length + 2 := by
      simp only [List.length_append]
      omega
    rw [← hlen, List.take_left]
  · have hwr : wrapRep ps idt
        = ps ++ midALit ++ idt ++ midBLit ++ idt ++ midCLit := by
      rw [wrapRep, if_neg hcond]
    have hnone : wrapMatch ps (wrapRep ps idt ++ Z) = none := by
      apply wrapMatch_none_of_empty_run
      have hform : wrapRep ps idt ++ Z
          = ps ++ (midALit ++ (idt ++ (midBLit ++ (idt ++ (midCLit ++ Z))))) := by
        rw [hwr]
        simp [List.append_assoc]
      rw [hform, List.drop_left]
      have hA : midALit = '\x7b' :: " content: ".toList := by decide
      rw [hA, List.cons_append, List.takeWhile_cons_of_neg (by decide)]
    rw [hnone] at h
    exact absurd h (by simp)

/-- One emitted step of the wrapping scan preserves the property that every
pattern match is an identity match, given the per-position facts about the
input before the match site, the replacement, and the scanned tail. -/
theorem wrap_out_step {pp ps : List Char} {dps : Nat} {A XX idt Z : List Char} {j : Nat}
    (hlA : A.length = j)
    (hdot : ps[dps]? = some '.')
    (hdps2 : dps + 2 ≤ ps.length)
    (hcross : ∀ d, 1 ≤ d → d < pp.length →
      ∃ u, u < ps.length ∧ d + u < pp.length ∧ pp[d+u]? ≠ ps[u]?)
    (hIdIn : ∀ i, i < j → ∀ rep k, wrapMatch pp (List.drop i (A ++ ps ++ XX)) = some (rep, k) →
        rep = List.take k (List.drop i (A ++ ps ++ XX)))
    (hj0 : ∀ rep k, wrapMatch pp (wrapRep ps idt ++ Z) = some (rep, k) →
        rep = List.take k (wrapRep ps idt ++ Z))
    (hint : ∀ d, 1 ≤ d → d < (wrapRep ps idt).length →
        wrapMatch pp (List.drop d (wrapRep ps idt ++ Z)) = none)
    (hZ : OnlyIdMatches (wrapMatch pp) Z) :
    OnlyIdMatches (wrapMatch pp) (A ++ wrapRep ps idt ++ Z) := by
  obtain ⟨w, hw⟩ := wrapRep_pref ps idt
  have hout : A ++ wrapRep ps idt ++ Z = (A ++ ps) ++ (w ++ Z) := by
    rw [← hw]
    simp [List.append_assoc]
  have hPlen : (A ++ ps).length = j + ps.length := by rw [List.length_append, hlA]
  have hdj : List.drop j (A ++ wrapRep ps idt ++ Z) = wrapRep ps idt ++ Z := by
    have hform : A ++ wrapRep ps idt ++ Z = A ++ (wrapRep ps idt ++ Z) := by
      simp [List.append_assoc]
    have hj0' : j = A.length + 0 := by omega
    rw [hform, hj0', List.drop_append, List.drop_zero]
  intro i rep k hmatch
  rcases Nat.lt_trichotomy i j with hij | hij | hij
  · obtain ⟨hdec, hne, hstartm, hrepm, hkm⟩ := wrapMatch_some_elim hmatch
    have hppf : pp <+: List.drop i (A ++ wrapRep ps idt ++ Z) := ⟨_, hdec.symm⟩
    have hpsj : ps <+: List.drop j (A ++ wrapRep ps idt ++ Z) := by
      rw [hdj, ← hw, List.append_assoc]
      exact ⟨_, rfl⟩
    rcases Nat.lt_or_ge j (i + pp.length) with hov | hov
    · exact absurd (no_overlap_cross hcross hppf hpsj hij hov) id
    · have hdotj : (A ++ wrapRep ps idt ++ Z)[j + dps]? = some '.' := by
        rw [hout]
        rw [List.getElem?_append_left (show j + dps < (A ++ ps).length by
          rw [hPlen]; omega)]
        rw [List.getElem?_append_right (show A.length ≤ j + dps by omega)]
        have harith : j + dps - A.length = dps := by omega
        rw [harith]
        exact hdot
      have hdd : (List.drop i (A ++ wrapRep ps idt ++ Z)).drop pp.length
          = List.drop (i + pp.length) (A ++ wrapRep ps idt ++ Z) := by
        rw [List.drop_drop]
      have hrun_pref : List.takeWhile isIdChar
            (List.drop (i + pp.length) (A ++ wrapRep ps idt ++ Z))
          <+: List.drop (i + pp.length) (A ++ wrapRep ps idt ++ Z) := takeWhilePref _ _
      have hrb : i + pp.length + (List.takeWhile isIdChar
            (List.drop (i + pp.length) (A ++ wrapRep ps idt ++ Z))).length ≤ j + dps := by
        by_contra hcon
        push_neg at hcon
        have hidx : j + dps - (i + pp.length) < (List.takeWhile isIdChar
            (List.drop (i + pp.length) (A ++ wrapRep ps idt ++ Z))).length := by omega
        have e1 := prefAgree hrun_pref hidx
        rw [List.getElem?_drop] at e1
        have harith : i + pp.length + (j + dps - (i + pp.length)) = j + dps := by omega
        rw [harith, hdotj] at e1
        have hmem := List.getElem?_mem e1.symm
        have := List.mem_takeWhile_imp hmem
        exact absurd this (by decide)
      rw [hdd] at hkm
      have hkfull : i + k ≤ j + ps.length := by omega
      have htkeq : (List.drop i (A ++ wrapRep ps idt ++ Z)).take k
          = (List.drop i (A ++ ps ++ XX)).take k := by
        rw [hout]
        exact @seg_take_eq (A ++ ps) (w ++ Z) XX i k (by rw [hPlen]; omega)
      have hmatch_in := wrapMatch_congr hmatch htkeq
      have hidin := hIdIn i hij rep k hmatch_in
      rw [htkeq]
      exact hidin
  · rw [hij] at hmatch ⊢
    rw [hdj] at hmatch ⊢
    exact hj0 rep k hmatch
  · rcases Nat.lt_or_ge i (j + (wrapRep ps idt).length) with hin | hbig
    · have hsp : List.drop i (A ++ wrapRep ps idt ++ Z)
          = List.drop (i - j) (wrapRep ps idt ++ Z) := by
        have hform : A ++ wrapRep ps idt ++ Z = A ++ (wrapRep ps idt ++ Z) := by
          simp [List.append_assoc]
        have hde : i = A.length + (i - j) := by omega
        calc List.drop i (A ++ wrapRep ps idt ++ Z)
            = List.drop (A.length + (i - j)) (A ++ (wrapRep ps idt ++ Z)) := by
              rw [hform, ← hde]
          _ = List.drop (i - j) (wrapRep ps idt ++ Z) := List.drop_append _
      rw [hsp] at hmatch
      rw [hint (i - j) (by omega) (by omega)] at hmatch
      exact absurd hmatch (by simp)
    · have hsp : List.drop i (A ++ wrapRep ps idt ++ Z)
          = List.drop (i - (j + (wrapRep ps idt).length)) Z := by
        have hlen2 : (A ++ wrapRep ps idt).length = j + (wrapRep ps idt).length := by
          rw [List.length_append, hlA]
        have hde : i = (A ++ wrapRep ps idt).length
            + (i - (j + (wrapRep ps idt).length)) := by
          rw [hlen2]; omega
        calc List.drop i (A ++ wrapRep ps idt ++ Z)
            = List.drop ((A ++ wrapRep ps idt).length
                + (i - (j + (wrapRep ps idt).length))) ((A ++ wrapRep ps idt) ++ Z) := by
              rw [← hde]
          _ = List.drop (i - (j + (wrapRep ps idt).length)) Z := List.drop_append _
      rw [hsp] at hmatch
      have := hZ _ rep k hmatch
      rw [hsp]
      exact this

/-- Master induction: a scanning pass by wrapMatch ps leaves a text whose
pp-matches are all identity matches, provided pp is ps itself or the input
already had that property. -/
theorem wrap_pass_onlyId {pp ps : List Char} {dps : Nat}
    (hdot : ps[dps]? = some '.')
    (hdps2 : dps + 2 ≤ ps.length)
    (hcross : ∀ d, 1 ≤ d → d < pp.length →
      ∃ u, u < ps.length ∧ d + u < pp.length ∧ pp[d+u]? ≠ ps[u]?)
    (hstep : ∀ idt Z : List Char, idt ≠ [] → isIdStart (idt.headD ' ') = true →
      (∀ c ∈ idt, isIdChar c = true) →
      (∀ rep k, wrapMatch pp (wrapRep ps idt ++ Z) = some (rep, k) →
        rep = List.take k (wrapRep ps idt ++ Z)) ∧
      (∀ d, 1 ≤ d → d < (wrapRep ps idt).length →
        wrapMatch pp (List.drop d (wrapRep ps idt ++ Z)) = none)) :
    ∀ l, (pp = ps ∨ OnlyIdMatches (wrapMatch pp) l) →
      OnlyIdMatches (wrapMatch pp) (subScan (wrapMatch ps) l) := by
  have main : ∀ n l, l.length ≤ n → (pp = ps ∨ OnlyIdMatches (wrapMatch pp) l) →
      OnlyIdMatches (wrapMatch pp) (subScan (wrapMatch ps) l) := by
    intro n
    induction n with
    | zero =>
      intro l hl hpre
      have hnil : l = [] := List.length_eq_zero.mp (Nat.le_zero.mp hl)
      subst hnil
      rw [subScan_nil]
      intro j rep k hj
      rw [List.drop_nil, matcher_nil_none (wrapMatch_consumes pp)] at hj
      exact absurd hj (by simp)
    | succ n ih =>
      intro l hl hpre
      rcases subScan_first (wrapMatch_consumes ps) l with ⟨hnm, heq⟩ |
        ⟨j, rep, k, hj, hmin, hle, heq⟩
      · rw [heq]
        rcases hpre with hpe | hoi
        · subst hpe
          exact noMatches_onlyId hnm
        · exact hoi
      · obtain ⟨hdec, hne, hstart, hrep, hk⟩ := wrapMatch_some_elim hj
        have hlrec : l = List.take j l ++ ps
            ++ (List.takeWhile isIdChar ((List.drop j l).drop ps.length)
              ++ (parrLit ++ ((List.drop j l).drop ps.length).drop
                ((List.takeWhile isIdChar ((List.drop j l).drop ps.length)).length
                  + parrLit.length))) := by
          calc l = List.take j l ++ List.drop j l := (List.take_append_drop j l).symm
            _ = List.take j l ++ (ps
                ++ (List.takeWhile isIdChar ((List.drop j l).drop ps.length)
                  ++ (parrLit ++ ((List.drop j l).drop ps.length).drop
                    ((List.takeWhile isIdChar ((List.drop j l).drop ps.length)).length
                      + parrLit.length)))) := by rw [← hdec]
            _ = _ := by simp [List.append_assoc]
        have hlA : (List.take j l).length = j := by
          rw [List.length_take]
          omega
        have htail : pp = ps ∨ OnlyIdMatches (wrapMatch pp) (List.drop (j + k) l) := by
          rcases hpre with hpe | hoi
          · exact Or.inl hpe
          · exact Or.inr (onlyId_drop hoi (j + k))
        have hk1 : 1 ≤ k := (wrapMatch_consumes ps _ _ _ hj).1
        have hZlen : (List.drop (j + k) l).length ≤ n := by
          rw [List.length_drop]
          omega
        have hZ := ih _ hZlen htail
        have hIdIn : ∀ i, i < j → ∀ rep2 k2,
            wrapMatch pp (List.drop i (List.take j l ++ ps
              ++ (List.takeWhile isIdChar ((List.drop j l).drop ps.length)
                ++ (parrLit ++ ((List.drop j l).drop ps.length).drop
                  ((List.takeWhile isIdChar ((List.drop j l).drop ps.length)).length
                    + parrLit.length))))) = some (rep2, k2) →
            rep2 = List.take k2 (List.drop i (List.take j l ++ ps
              ++ (List.takeWhile isIdChar ((List.drop j l).drop ps.length)
                ++ (parrLit ++ ((List.drop j l).drop ps.length).drop
                  ((List.takeWhile isIdChar ((List.drop j l).drop ps.length)).length
                    + parrLit.length))))) := by
          intro i hi rep2 k2 hm2
          rw [← hlrec] at hm2 ⊢
          rcases hpre with hpe | hoi
          · subst hpe
            rw [hmin i hi] at hm2
            exact absurd hm2 (by simp)
          · exact hoi i rep2 k2 hm2
        obtain ⟨hj0, hint⟩ := hstep (List.takeWhile isIdChar ((List.drop j l).drop ps.length))
          (subScan (wrapMatch ps) (List.drop (j + k) l)) hne hstart
          (fun c hc => List.mem_takeWhile_imp hc)
        have hstepres := wrap_out_step hlA hdot hdps2 hcross hIdIn hj0 hint hZ
        rw [heq, hrep]
        exact hstepres
  intro l
  exact main l.length l (Nat.le_refl _)

/-- Step facts for pattern 1 scanned by pattern 1. -/
theorem wrap11_step : ∀ idt Z : List Char, idt ≠ [] → isIdStart (idt.headD ' ') = true →
    (∀ c ∈ idt, isIdChar c = true) →
    (∀ rep k, wrapMatch lit1 (wrapRep lit1 idt ++ Z) = some (rep, k) →
      rep = List.take k (wrapRep lit1 idt ++ Z)) ∧
    (∀ d, 1 ≤ d → d < (wrapRep lit1 idt).length →
      wrapMatch lit1 (List.drop d (wrapRep lit1 idt ++ Z)) = none) := by
  intro idt Z hne hstart hall
  constructor
  · exact wrap_self_j0 Z hne hstart hall
  · exact @wrapRep_interior_none lit1 lit1 idt 9 Z hstart hall (by decide) lit1_dot
      lit1_dot_uniq lit1_next_dot lit1_no_comma s0_t1_p1 mb_p1 mc_p1 idc_1n_p1 idc_1u_p1

/-- Step facts for pattern 2 scanned by pattern 2. -/
theorem wrap22_step : ∀ idt Z : List Char, idt ≠ [] → isIdStart (idt.headD ' ') = true →
    (∀ c ∈ idt, isIdChar c = true) →
    (∀ rep k, wrapMatch lit2 (wrapRep lit2 idt ++ Z) = some (rep, k) →
      rep = List.take k (wrapRep lit2 idt ++ Z)) ∧
    (∀ d, 1 ≤ d → d < (wrapRep lit2 idt).length →
      wrapMatch lit2 (List.drop d (wrapRep lit2 idt ++ Z)) = none) := by
  intro idt Z hne hstart hall
  constructor
  · exact wrap_self_j0 Z hne hstart hall
  · exact @wrapRep_interior_none lit2 lit2 idt 7 Z hstart hall (by decide) lit2_dot
      lit2_dot_uniq lit2_next_dot lit2_no_comma s0_t2_p2 mb_p2 mc_p2 idc_2n_p2 idc_2u_p2

/-- Step facts for pattern 1 over replacements emitted by pattern 2. -/
theorem wrap12_step : ∀ idt Z : List Char, idt ≠ [] → isIdStart (idt.headD ' ') = true →
    (∀ c ∈ idt, isIdChar c = true) →
    (∀ rep k, wrapMatch lit1 (wrapRep lit2 idt ++ Z) = some (rep, k) →
      rep = List.take k (wrapRep lit2 idt ++ Z)) ∧
    (∀ d, 1 ≤ d → d < (wrapRep lit2 idt).length →
      wrapMatch lit1 (List.drop d (wrapRep lit2 idt ++ Z)) = none) := by
  intro idt Z hne hstart hall
  constructor
  · intro rep k h
    obtain ⟨w, hw⟩ := wrapRep_pref lit2 idt
    have hform : wrapRep lit2 idt ++ Z = lit2 ++ (w ++ Z) := by
      rw [← hw]
      simp [List.append_assoc]
    have hnone : wrapMatch lit1 (wrapRep lit2 idt ++ Z) = none := by
      rw [hform]
      exact @wrapMatch_none_head lit1 lit2 (w ++ Z) 'P' 'm' (by decide) (by decide) (by decide)
    rw [hnone] at h
    exact absurd h (by simp)
  · exact @wrapRep_interior_none lit1 lit2 idt 9 Z hstart hall (by decide) lit1_dot
      lit1_dot_uniq lit1_next_dot lit1_no_comma s0_t2_p1 mb_p1 mc_p1 idc_2n_p1 idc_2u_p1

/-- After the pattern-1 pass, every pattern-1 match is an identity match. -/
theorem wrap1_self_onlyId (l : List Char) :
    OnlyIdMatches (wrapMatch lit1) (subScan (wrapMatch lit1) l) :=
  wrap_pass_onlyId lit1_dot (by decide) cross_11 wrap11_step l (Or.inl rfl)

/-- After the pattern-2 pass, every pattern-2 match is an identity match. -/
theorem wrap2_self_onlyId (l : List Char) :
    OnlyIdMatches (wrapMatch lit2) (subScan (wrapMatch lit2) l) :=
  wrap_pass_onlyId lit2_dot (by decide) cross_22 wrap22_step l (Or.inl rfl)

/-- The pattern-2 pass preserves the pattern-1 identity-match property. -/
theorem wrap1_through2 (l : List Char) (h : OnlyIdMatches (wrapMatch lit1) l) :
    OnlyIdMatches (wrapMatch lit1) (subScan (wrapMatch lit2) l) :=
  wrap_pass_onlyId lit2_dot (by decide) cross_12 wrap12_step l (Or.inr h)

/-- The fix_mock_responses transformation is idempotent. -/
theorem wrapPag_idem (l : List Char) : wrapPag (wrapPag l) = wrapPag l := by
  simp only [wrapPag]
  have hA := wrap1_self_onlyId l
  have hB := wrap1_through2 _ hA
  have h1 : subScan (wrapMatch lit1) (subScan (wrapMatch lit2) (subScan (wrapMatch lit1) l))
      = subScan (wrapMatch lit2) (subScan (wrapMatch lit1) l) :=
    subScan_eq_self_of_onlyId (wrapMatch_consumes lit1) _ hB
  rw [h1]
  exact subScan_eq_self_of_onlyId (wrapMatch_consumes lit2) _
    (wrap2_self_onlyId (subScan (wrapMatch lit1) l))

/-- Claim C1: the wrapFetchMock insertion of fix_fetch_mocks and the
pagination wrapping of fix_mock_responses are both idempotent: applying
either transformation twice yields the same content as applying it once. -/
theorem C1_idempotent :
    (∀ l : List Char, resetSub (resetSub l) = resetSub l) ∧
    (∀ l : List Char, wrapPag (wrapPag l) = wrapPag l) :=
  ⟨resetSub_idem, wrapPag_idem⟩

theorem idc_1n_p2 : ∀ d, 1 ≤ d → d < (lit1 ++ nullLit ++ parrLit).length →
    ∃ u, u < lit2.length ∧ d + u < (lit1 ++ nullLit ++ parrLit).length ∧
      (lit1 ++ nullLit ++ parrLit)[d+u]? ≠ lit2[u]? := by decide

theorem idc_1u_p2 : ∀ d, 1 ≤ d → d < (lit1 ++ undefLit ++ parrLit).length →
    ∃ u, u < lit2.length ∧ d + u < (lit1 ++ undefLit ++ parrLit).length ∧
      (lit1 ++ undefLit ++ parrLit)[d+u]? ≠ lit2[u]? := by decide

theorem qoff_21 : ∀ dd, dd < lit2.length → 9 < dd → lit2[dd]? = some '.' →
    lit2[dd - 9]? ≠ lit1[0]? := by decide

theorem qoff_12 : ∀ dd, dd < lit1.length → 7 < dd → lit1[dd]? = some '.' →
    lit1[dd - 7]? ≠ lit2[0]? := by decide

/-- The matcher never matches strictly inside one of its own match regions:
the pattern cannot restart inside the pattern (overlap facts), inside the
captured identifier run (the dot argument), or at the closing parens. -/
theorem wrapMatch_noInterior_gen {p : List Char} {dp : Nat}
    (hdp : dp < p.length) (hdot : p[dp]? = some '.')
    (hnp : ∀ u, u < p.length → p[u]? ≠ some ')')
    (hcross : ∀ d, 1 ≤ d → d < p.length →
      ∃ u, u < p.length ∧ d + u < p.length ∧ p[d+u]? ≠ p[u]?) :
    NoInterior (wrapMatch p) := by
  intro s rep k h d hd1 hdk
  obtain ⟨hdec, hne, hstart, hrep, hk⟩ := wrapMatch_some_elim h
  apply wrapMatch_none_of_not_pref
  intro hpref
  have hall : ∀ c ∈ List.takeWhile isIdChar (s.drop p.length), isIdChar c = true :=
    fun c hc => List.mem_takeWhile_imp hc
  rcases Nat.lt_or_ge d p.length with hd2 | hd2
  · have h0 : p <+: List.drop 0 s := by
      rw [List.drop_zero]
      exact ⟨_, hdec.symm⟩
    exact no_overlap_cross hcross h0 hpref hd1 (by omega)
  · rcases Nat.lt_or_ge d (p.length + (List.takeWhile isIdChar (s.drop p.length)).length)
      with hd3 | hd3
    · have hde : d = p.length + (d - p.length) := by omega
      have hdrop : List.drop d s = (List.takeWhile isIdChar (s.drop p.length)).drop
          (d - p.length) ++ (parrLit ++ (s.drop p.length).drop
            ((List.takeWhile isIdChar (s.drop p.length)).length + parrLit.length)) := by
        calc List.drop d s
            = List.drop (p.length + (d - p.length)) (p
              ++ (List.takeWhile isIdChar (s.drop p.length)
                ++ (parrLit ++ (s.drop p.length).drop
                  ((List.takeWhile isIdChar (s.drop p.length)).length + parrLit.length)))) := by
              rw [← hdec, ← hde]
          _ = List.drop (d - p.length) (List.takeWhile isIdChar (s.drop p.length)
                ++ (parrLit ++ (s.drop p.length).drop
                  ((List.takeWhile isIdChar (s.drop p.length)).length + parrLit.length))) := by
              have hplen : p.length = (p : List Char).length := rfl
              exact List.drop_append _
          _ = _ := List.drop_append_of_le_length (by omega)
      rw [hdrop] at hpref
      exact @not_pref_run_stop p (List.takeWhile isIdChar (s.drop p.length))
        (parrLit ++ (s.drop p.length).drop
          ((List.takeWhile isIdChar (s.drop p.length)).length + parrLit.length))
        (d - p.length) dp ')' hall (by omega) hdp hdot hnp
        (by rw [List.getElem?_append_left (by decide)]; decide) hpref
    · have hparr2 : parrLit.length = 2 := by decide
      have hdlt : d - (p.length + (List.takeWhile isIdChar (s.drop p.length)).length) < 2 := by
        omega
      have hll : (p ++ List.takeWhile isIdChar (s.drop p.length)).length
          = p.length + (List.takeWhile isIdChar (s.drop p.length)).length :=
        List.length_append _ _
      have hde : d = (p ++ List.takeWhile isIdChar (s.drop p.length)).length
          + (d - (p.length + (List.takeWhile isIdChar (s.drop p.length)).length)) := by
        rw [hll]; omega
      have hs2 : s = (p ++ List.takeWhile isIdChar (s.drop p.length))
          ++ (parrLit ++ (s.drop p.length).drop
            ((List.takeWhile isIdChar (s.drop p.length)).length + parrLit.length)) := by
        conv_lhs => rw [hdec]
        simp [List.append_assoc]
      have hdrop : List.drop d s = List.drop
          (d - (p.length + (List.takeWhile isIdChar (s.drop p.length)).length))
          (parrLit ++ (s.drop p.length).drop
            ((List.takeWhile isIdChar (s.drop p.length)).length + parrLit.length)) := by
        calc List.drop d s
            = List.drop ((p ++ List.takeWhile isIdChar (s.drop p.length)).length
                + (d - (p.length + (List.takeWhile isIdChar (s.drop p.length)).length)))
                ((p ++ List.takeWhile isIdChar (s.drop p.length))
                  ++ (parrLit ++ (s.drop p.length).drop
                    ((List.takeWhile isIdChar (s.drop p.length)).length + parrLit.length))) := by
              rw [← hs2, ← hde]
          _ = _ := List.drop_append _
      rw [hdrop] at hpref
      have hp0 : 0 < p.length := by omega
      have e1 := prefAgree hpref hp0
      have hhead : (List.drop
          (d - (p.length + (List.takeWhile isIdChar (s.drop p.length)).length))
          (parrLit ++ (s.drop p.length).drop
            ((List.takeWhile isIdChar (s.drop p.length)).length + parrLit.length)))[0]?
          = some ')' := by
        have he2 : d - (p.length + (List.takeWhile isIdChar (s.drop p.length)).length) = 0
            ∨ d - (p.length + (List.takeWhile isIdChar (s.drop p.length)).length) = 1 := by
          omega
        rcases he2 with he | he
        · rw [he, List.drop_zero, List.getElem?_append_left (by decide)]
          decide
        · rw [he, List.drop_append_of_le_length (by decide),
            List.getElem?_append_left (by decide)]
          decide
      rw [hhead] at e1
      exact hnp 0 hp0 e1.symm

/-- The pattern-1 matcher has no interior matches. -/
theorem wrapMatch1_noInterior : NoInterior (wrapMatch lit1) :=
  @wrapMatch_noInterior_gen lit1 9 (by decide) lit1_dot lit1_no_paren cross_11

/-- The pattern-2 matcher has no interior matches. -/
theorem wrapMatch2_noInterior : NoInterior (wrapMatch lit2) :=
  @wrapMatch_noInterior_gen lit2 7 (by decide) lit2_dot lit2_no_paren cross_22

/-- A segment that no match region touches is copied verbatim into the scan's
output. -/
theorem subScan_seg_preserve {m : List Char → Option (List Char × Nat)} (hm : ConsumesOk m) :
    ∀ s a L, a + L ≤ s.length →
      (∀ p rep k, m (List.drop p s) = some (rep, k) → p + k ≤ a ∨ a + L ≤ p) →
      ∃ u v, subScan m s = u ++ ((List.drop a s).take L ++ v) := by
  have main : ∀ n s, s.length ≤ n → ∀ a L, a + L ≤ s.length →
      (∀ p rep k, m (List.drop p s) = some (rep, k) → p + k ≤ a ∨ a + L ≤ p) →
      ∃ u v, subScan m s = u ++ ((List.drop a s).take L ++ v) := by
    intro n
    induction n with
    | zero =>
      intro s hs a L hal hcond
      have hnil : s = [] := List.length_eq_zero.mp (Nat.le_zero.mp hs)
      subst hnil
      rw [subScan_nil]
      exact ⟨[], [], by simp⟩
    | succ n ih =>
      intro s hs a L hal hcond
      rcases subScan_first hm s with ⟨hnm, heq⟩ | ⟨j, rep, k, hj, hmin, hle, heq⟩
      · rw [heq]
        refine ⟨List.take a s, List.drop (a + L) s, ?_⟩
        conv_lhs => rw [← List.take_append_drop a s]
        congr 1
        have hdd : List.drop (a + L) s = (List.drop a s).drop L := by rw [List.drop_drop]
        rw [hdd, List.take_append_drop]
      · have hk1 : 1 ≤ k := (hm _ _ _ hj).1
        rcases hcond j rep k hj with hleft | hright
        · have hcondtail : ∀ p rep2 k2, m (List.drop p (List.drop (j + k) s))
              = some (rep2, k2) → p + k2 ≤ a - (j + k) ∨ (a - (j + k)) + L ≤ p := by
            intro p rep2 k2 hp
            rw [List.drop_drop] at hp
            rcases hcond _ _ _ hp with h1 | h1
            · left; omega
            · right; omega
          obtain ⟨u, v, huv⟩ := ih (List.drop (j + k) s)
            (by rw [List.length_drop]; omega) (a - (j + k)) L
            (by rw [List.length_drop]; omega) hcondtail
          refine ⟨List.take j s ++ rep ++ u, v, ?_⟩
          rw [heq, huv]
          have hdd : List.drop (a - (j + k)) (List.drop (j + k) s) = List.drop a s := by
            rw [List.drop_drop]
            congr 1
            omega
          rw [hdd]
          simp [List.append_assoc]
        · refine ⟨List.take a s, List.drop (a + L) (List.take j s)
            ++ (rep ++ subScan m (List.drop (j + k) s)), ?_⟩
          rw [heq]
          have h1 : List.take j s = List.take a s ++ ((List.drop a s).take L
              ++ List.drop (a + L) (List.take j s)) := by
            conv_lhs => rw [← List.take_append_drop a (List.take j s)]
            congr 1
            · rw [List.take_take, Nat.min_eq_left (by omega)]
            · conv_lhs => rw [← List.take_append_drop L (List.drop a (List.take j s))]
              congr 1
              · rw [List.drop_take, List.take_take, Nat.min_eq_left (by omega)]
              · rw [List.drop_drop]
          nth_rewrite 1 [h1]
          simp [List.append_assoc]
  intro s
  exact main s.length s (Nat.le_refl _)

/-- A match region of the wrapping matcher cannot cross from the left into a
segment that starts with the other pattern literal. -/
theorem no_cross_into_seg {q h s rep : List Char} {p k a dh : Nat}
    (hm : wrapMatch q (List.drop p s) = some (rep, k))
    (hpa : p < a) (hka : a < p + k)
    (hseg : ∀ u, u < h.length → s[a + u]? = h[u]?)
    (hdh : dh < h.length) (hdoth : h[dh]? = some '.')
    (hnph : ∀ u, u < h.length → h[u]? ≠ some ')')
    (hqoff : ∀ dd, dd < q.length → dh < dd → q[dd]? = some '.' → q[dd - dh]? ≠ h[0]?) :
    False := by
  obtain ⟨hdec, hne, hstart, hrep, hk⟩ := wrapMatch_some_elim hm
  set R := List.takeWhile isIdChar ((List.drop p s).drop q.length) with hR
  have h0len : 0 < h.length := by omega
  have hsa : s[a + 0]? = h[0]? := hseg 0 h0len
  rw [Nat.add_zero] at hsa
  have hqpref : q <+: List.drop p s := ⟨_, hdec.symm⟩
  have hD1 : (List.drop p s)[q.length + R.length]? = some ')' := by
    rw [hdec, List.getElem?_append_right (by omega)]
    have harith : q.length + R.length - q.length = R.length := by omega
    rw [harith, List.getElem?_append_right (Nat.le_refl _), Nat.sub_self,
      List.getElem?_append_left (by decide)]
    decide
  have hparr1 : s[p + (q.length + R.length)]? = some ')' := by
    rw [← List.getElem?_drop]
    exact hD1
  have hD2 : (List.drop p s)[q.length + R.length + 1]? = some ')' := by
    rw [hdec, List.getElem?_append_right (by omega)]
    have harith : q.length + R.length + 1 - q.length = R.length + 1 := by omega
    rw [harith, List.getElem?_append_right (by omega)]
    have harith2 : R.length + 1 - R.length = 1 := by omega
    rw [harith2, List.getElem?_append_left (by decide)]
    decide
  have hparr2 : s[p + (q.length + R.length + 1)]? = some ')' := by
    rw [← List.getElem?_drop]
    exact hD2
  rcases Nat.eq_or_lt_of_le (show a ≤ p + k - 1 by omega) with heq1 | hlt1
  · have harith : p + (q.length + R.length + 1) = a := by omega
    rw [harith, hsa] at hparr2
    exact hnph 0 h0len hparr2
  · rcases Nat.lt_or_ge (p + k - 2 - a) h.length with hc1 | hc1
    · have hch := hseg (p + k - 2 - a) hc1
      have harith : a + (p + k - 2 - a) = p + (q.length + R.length) := by omega
      rw [harith, hparr1] at hch
      exact hnph _ hc1 hch.symm
    · have hx := hseg dh hdh
      rw [hdoth] at hx
      have hxlt : a + dh < p + (q.length + R.length) := by omega
      rcases Nat.lt_or_ge (a + dh) (p + q.length) with hin | hin
      · have hdd1 : a + dh - p < q.length := by omega
        have hq1 := prefAgree hqpref hdd1
        rw [List.getElem?_drop] at hq1
        have harith : p + (a + dh - p) = a + dh := by omega
        rw [harith, hx] at hq1
        have hoff := hqoff _ hdd1 (by omega) hq1.symm
        have harith2 : a + dh - p - dh = a - p := by omega
        rw [harith2] at hoff
        have hap : a - p < q.length := by omega
        have hq2 := prefAgree hqpref hap
        rw [List.getElem?_drop] at hq2
        have harith3 : p + (a - p) = a := by omega
        rw [harith3, hsa] at hq2
        exact hoff hq2.symm
      · have he : a + dh - (p + q.length) < R.length := by omega
        have hD3 : (List.drop p s)[q.length + (a + dh - (p + q.length))]?
            = R[a + dh - (p + q.length)]? := by
          rw [hdec, List.getElem?_append_right (by omega)]
          have harith : q.length + (a + dh - (p + q.length)) - q.length
              = a + dh - (p + q.length) := by omega
          rw [harith, List.getElem?_append_left he]
        rw [List.getElem?_drop] at hD3
        have harith : p + (q.length + (a + dh - (p + q.length))) = a + dh := by omega
        rw [harith, hx] at hD3
        have hmem : '.' ∈ R := List.getElem?_mem hD3.symm
        rw [hR] at hmem
        have := List.mem_takeWhile_imp hmem
        exact absurd this (by decide)

/-- No position strictly inside a Promise.resolve call-site text matches
pattern 1. -/
theorem site2_interior_none {idt B : List Char}
    (hall : ∀ c ∈ idt, isIdChar c = true) :
    ∀ d, 1 ≤ d → d < lit2.length + idt.length + 2 →
      wrapMatch lit1 (List.drop d (lit2 ++ (idt ++ (parrLit ++ B)))) = none := by
  intro d hd1 hd2
  apply wrapMatch_none_of_not_pref
  rcases Nat.lt_or_ge d lit2.length with hc1 | hc1
  · exact not_pref_drop_of_mismatch (cross_21 d hd1 hc1)
  · rcases Nat.lt_or_ge d (lit2.length + idt.length) with hc2 | hc2
    · have hde : d = lit2.length + (d - lit2.length) := by omega
      have hdrop : List.drop d (lit2 ++ (idt ++ (parrLit ++ B)))
          = idt.drop (d - lit2.length) ++ (parrLit ++ B) := by
        calc List.drop d (lit2 ++ (idt ++ (parrLit ++ B)))
            = List.drop (lit2.length + (d - lit2.length))
                (lit2 ++ (idt ++ (parrLit ++ B))) := by rw [← hde]
          _ = List.drop (d - lit2.length) (idt ++ (parrLit ++ B)) := List.drop_append _
          _ = idt.drop (d - lit2.length) ++ (parrLit ++ B) :=
            List.drop_append_of_le_length (by omega)
      rw [hdrop]
      exact @not_pref_run_stop lit1 idt (parrLit ++ B) (d - lit2.length) 9 ')' hall
        (by omega) (by decide) lit1_dot lit1_no_paren
        (by rw [List.getElem?_append_left (by decide)]; decide)
    · have hll : (lit2 ++ idt).length = lit2.length + idt.length := List.length_append _ _
      have hde : d = (lit2 ++ idt).length + (d - (lit2.length + idt.length)) := by
        rw [hll]; omega
      have hform : lit2 ++ (idt ++ (parrLit ++ B)) = (lit2 ++ idt) ++ (parrLit ++ B) := by
        simp [List.append_assoc]
      have hdrop : List.drop d (lit2 ++ (idt ++ (parrLit ++ B)))
          = List.drop (d - (lit2.length + idt.length)) (parrLit ++ B) := by
        calc List.drop d (lit2 ++ (idt ++ (parrLit ++ B)))
            = List.drop ((lit2 ++ idt).length + (d - (lit2.length + idt.length)))
                ((lit2 ++ idt) ++ (parrLit ++ B)) := by rw [← hform, ← hde]
          _ = _ := List.drop_append _
      rw [hdrop]
      intro hpref
      have hp0 : 0 < lit1.length := by decide
      have e1 := prefAgree hpref hp0
      have hhead : (List.drop (d - (lit2.length + idt.length)) (parrLit ++ B))[0]?
          = some ')' := by
        have he2 : d - (lit2.length + idt.length) = 0
            ∨ d - (lit2.length + idt.length) = 1 := by omega
        rcases he2 with he | he
        · rw [he, List.drop_zero, List.getElem?_append_left (by decide)]
          decide
        · rw [he, List.drop_append_of_le_length (by decide),
            List.getElem?_append_left (by decide)]
          decide
      rw [hhead] at e1
      exact lit1_no_paren 0 hp0 e1.symm

theorem lit1_split : lit1 = "mockFetch.mockResolvedValue(".toList ++ cmrLit := by decide

theorem lit2_split : lit2 = "Promise.resolve(".toList ++ cmrLit := by decide

/-- The pattern-2 pass copies a pattern-1 replacement verbatim: no pattern-2
match region touches it. -/
theorem pass2_keeps_wrap1 (u1 T idt : List Char)
    (hstart : isIdStart (idt.headD ' ') = true)
    (hall : ∀ c ∈ idt, isIdChar c = true) :
    ∃ u v, subScan (wrapMatch lit2) (u1 ++ wrapRep lit1 idt ++ T)
      = u ++ (wrapRep lit1 idt ++ v) := by
  obtain ⟨w2, hw2⟩ := wrapRep_pref lit1 idt
  have hsform : u1 ++ wrapRep lit1 idt ++ T = u1 ++ (wrapRep lit1 idt ++ T) := by
    simp [List.append_assoc]
  have hsform2 : u1 ++ wrapRep lit1 idt ++ T = (u1 ++ lit1) ++ (w2 ++ T) := by
    rw [← hw2]
    simp [List.append_assoc]
  have hlen2 : (u1 ++ lit1).length = u1.length + lit1.length := List.length_append _ _
  have halL : u1.length + (wrapRep lit1 idt).length
      ≤ (u1 ++ wrapRep lit1 idt ++ T).length := by
    simp only [List.length_append]
    omega
  have hcondframe : ∀ p rep k,
      wrapMatch lit2 (List.drop p (u1 ++ wrapRep lit1 idt ++ T)) = some (rep, k) →
      p + k ≤ u1.length ∨ u1.length + (wrapRep lit1 idt).length ≤ p := by
    intro p rep2 k2 hp
    by_contra hcon
    push_neg at hcon
    obtain ⟨hcon1, hcon2⟩ := hcon
    rcases Nat.lt_or_ge p u1.length with hpa | hpa
    · refine no_cross_into_seg hp hpa hcon1 ?_ (show 9 < lit1.length by decide)
        lit1_dot lit1_no_paren qoff_21
      intro u hu
      rw [hsform2, List.getElem?_append_left (by rw [hlen2]; omega),
        List.getElem?_append_right (by omega)]
      congr 1
      omega
    · have hds : List.drop p (u1 ++ wrapRep lit1 idt ++ T)
          = List.drop (p - u1.length) (wrapRep lit1 idt ++ T) := by
        have hde : p = u1.length + (p - u1.length) := by omega
        calc List.drop p (u1 ++ wrapRep lit1 idt ++ T)
            = List.drop (u1.length + (p - u1.length)) (u1 ++ (wrapRep lit1 idt ++ T)) := by
              rw [← hsform, ← hde]
          _ = List.drop (p - u1.length) (wrapRep lit1 idt ++ T) := List.drop_append _
      rcases Nat.eq_or_lt_of_le hpa with hpeq | hplt
      · have hz : p - u1.length = 0 := by omega
        rw [hds, hz, List.drop_zero] at hp
        have hWform : wrapRep lit1 idt ++ T = lit1 ++ (w2 ++ T) := by
          rw [← hw2]
          simp [List.append_assoc]
        rw [hWform,
          @wrapMatch_none_head lit2 lit1 (w2 ++ T) 'm' 'P' (by decide) (by decide)
            (by decide)] at hp
        exact absurd hp (by simp)
      · have hint := @wrapRep_interior_none lit2 lit1 idt 7 T hstart hall (by decide)
          lit2_dot lit2_dot_uniq lit2_next_dot lit2_no_comma s0_t1_p2 mb_p2 mc_p2
          idc_1n_p2 idc_1u_p2 (p - u1.length) (by omega) (by omega)
        rw [hds, hint] at hp
        exact absurd hp (by simp)
  obtain ⟨u3, v3, huv⟩ := subScan_seg_preserve (wrapMatch_consumes lit2)
    (u1 ++ wrapRep lit1 idt ++ T) u1.length (wrapRep lit1 idt).length halL hcondframe
  have hseg_eq : (List.drop u1.length (u1 ++ wrapRep lit1 idt ++ T)).take
      (wrapRep lit1 idt).length = wrapRep lit1 idt := by
    have hd : List.drop u1.length (u1 ++ wrapRep lit1 idt ++ T)
        = wrapRep lit1 idt ++ T := by
      rw [hsform]
      exact List.drop_left _ _
    rw [hd]
    exact List.take_left _ _
  rw [hseg_eq] at huv
  exact ⟨u3, v3, huv⟩

/-- The pattern-1 pass copies a Promise.resolve call site verbatim: no
pattern-1 match region touches it. -/
theorem pass1_keeps_site2 (A idt B : List Char)
    (hall : ∀ c ∈ idt, isIdChar c = true) :
    ∃ u v, subScan (wrapMatch lit1) (A ++ (lit2 ++ (idt ++ (parrLit ++ B))))
      = u ++ ((lit2 ++ (idt ++ parrLit)) ++ v) := by
  have hparr2 : parrLit.length = 2 := by decide
  have hsform2 : A ++ (lit2 ++ (idt ++ (parrLit ++ B)))
      = (A ++ lit2) ++ (idt ++ (parrLit ++ B)) := by
    simp [List.append_assoc]
  have hlen2 : (A ++ lit2).length = A.length + lit2.length := List.length_append _ _
  have halL : A.length + (lit2.length + idt.length + 2)
      ≤ (A ++ (lit2 ++ (idt ++ (parrLit ++ B)))).length := by
    simp only [List.length_append]
    omega
  have hcondframe : ∀ p rep k,
      wrapMatch lit1 (List.drop p (A ++ (lit2 ++ (idt ++ (parrLit ++ B))))) = some (rep, k) →
      p + k ≤ A.length ∨ A.length + (lit2.length + idt.length + 2) ≤ p := by
    intro p rep2 k2 hp
    by_contra hcon
    push_neg at hcon
    obtain ⟨hcon1, hcon2⟩ := hcon
    rcases Nat.lt_or_ge p A.length with hpa | hpa
    · refine no_cross_into_seg hp hpa hcon1 ?_ (show 7 < lit2.length by decide)
        lit2_dot lit2_no_paren qoff_12
      intro u hu
      rw [hsform2, List.getElem?_append_left (by rw [hlen2]; omega),
        List.getElem?_append_right (by omega)]
      congr 1
      omega
    · have hds : List.drop p (A ++ (lit2 ++ (idt ++ (parrLit ++ B))))
          = List.drop (p - A.length) (lit2 ++ (idt ++ (parrLit ++ B))) := by
        have hde : p = A.length + (p - A.length) := by omega
        calc List.drop p (A ++ (lit2 ++ (idt ++ (parrLit ++ B))))
            = List.drop (A.length + (p - A.length))
                (A ++ (lit2 ++ (idt ++ (parrLit ++ B)))) := by rw [← hde]
          _ = List.drop (p - A.length) (lit2 ++ (idt ++ (parrLit ++ B))) :=
            List.drop_append _
      rcases Nat.eq_or_lt_of_le hpa with hpeq | hplt
      · have hz : p - A.length = 0 := by omega
        rw [hds, hz, List.drop_zero,
          @wrapMatch_none_head lit1 lit2 (idt ++ (parrLit ++ B)) 'P' 'm' (by decide)
            (by decide) (by decide)] at hp
        exact absurd hp (by simp)
      · rw [hds, site2_interior_none hall (p - A.length) (by omega) (by omega)] at hp
        exact absurd hp (by simp)
  obtain ⟨u3, v3, huv⟩ := subScan_seg_preserve (wrapMatch_consumes lit1)
    (A ++ (lit2 ++ (idt ++ (parrLit ++ B)))) A.length (lit2.length + idt.length + 2)
    halL hcondframe
  have hseg_eq : (List.drop A.length (A ++ (lit2 ++ (idt ++ (parrLit ++ B))))).take
      (lit2.length + idt.length + 2) = lit2 ++ (idt ++ parrLit) := by
    have hd : List.drop A.length (A ++ (lit2 ++ (idt ++ (parrLit ++ B))))
        = lit2 ++ (idt ++ (parrLit ++ B)) := List.drop_left _ _
    rw [hd]
    have hform : lit2 ++ (idt ++ (parrLit ++ B)) = (lit2 ++ (idt ++ parrLit)) ++ B := by
      simp [List.append_assoc]
    have hlen3 : lit2.length + idt.length + 2 = (lit2 ++ (idt ++ parrLit)).length := by
      simp only [List.length_append]
      omega
    rw [hform, hlen3]
    exact List.take_left _ _
  rw [hseg_eq] at huv
  exact ⟨u3, v3, huv⟩

/-- Claim C6: for every content containing a createMockResponse(identifier)
call site inside either the mockFetch.mockResolvedValue or the
Promise.resolve shape, with a bare identifier argument other than null and
undefined, the fix_mock_responses rewrite produces the pagination envelope
createMockResponse({ content: id, totalElements: id.length, totalPages: 1,
size: 1000, number: 0 }) at that site, and re-applying the rewrite to the
output is a no-op. -/
theorem C6_envelope (pre A idt B l : List Char)
    (hpre : pre = lit1 ∨ pre = lit2)
    (hl : l = A ++ (pre ++ (idt ++ (parrLit ++ B))))
    (hne : idt ≠ []) (hstart : isIdStart (idt.headD ' ') = true)
    (hall : ∀ c ∈ idt, isIdChar c = true)
    (hnn : idt ≠ nullLit) (hnu : idt ≠ undefLit) :
    (∃ u v, wrapPag l = u ++ ((cmrLit ++ (midALit ++ (idt ++ (midBLit
        ++ (idt ++ midCLit))))) ++ v)) ∧
    wrapPag (wrapPag l) = wrapPag l := by
  refine ⟨?_, wrapPag_idem l⟩
  have hcond : ¬ ((idt == nullLit || idt == undefLit
      || idt.headD ' ' == '\x7b') = true) := by
    intro hc
    rcases wrapRep_id_cases hstart hc with hcc | hcc
    · exact hnn hcc
    · exact hnu hcc
  rcases hpre with hp1 | hp2
  · subst hp1
    subst hl
    have hdropj : List.drop A.length (A ++ (lit1 ++ (idt ++ (parrLit ++ B))))
        = lit1 ++ (idt ++ (parrLit ++ B)) := List.drop_left _ _
    have hm1 : wrapMatch lit1
        (List.drop A.length (A ++ (lit1 ++ (idt ++ (parrLit ++ B)))))
        = some (wrapRep lit1 idt, lit1.length + idt.length + 2) := by
      rw [hdropj]
      exact wrapMatch_some_of hne hstart hall
    obtain ⟨u1, hu1⟩ := subScan_hits (wrapMatch_consumes lit1) wrapMatch1_noInterior
      _ _ _ _ hm1
    obtain ⟨u2, v2, huv⟩ := pass2_keeps_wrap1 u1
      (subScan (wrapMatch lit1) (List.drop (A.length + (lit1.length + idt.length + 2))
        (A ++ (lit1 ++ (idt ++ (parrLit ++ B)))))) idt hstart hall
    have hwr : wrapRep lit1 idt = "mockFetch.mockResolvedValue(".toList
        ++ (cmrLit ++ (midALit ++ (idt ++ (midBLit ++ (idt ++ midCLit))))) := by
      rw [wrapRep, if_neg hcond]
      conv_lhs => rw [lit1_split]
      simp [List.append_assoc]
    refine ⟨u2 ++ "mockFetch.mockResolvedValue(".toList, v2, ?_⟩
    simp only [wrapPag]
    rw [hu1, huv, hwr]
    simp [List.append_assoc]
  · subst hp2
    subst hl
    obtain ⟨u1, v1, hu1⟩ := pass1_keeps_site2 A idt B hall
    have hform : u1 ++ ((lit2 ++ (idt ++ parrLit)) ++ v1)
        = u1 ++ (lit2 ++ (idt ++ (parrLit ++ v1))) := by
      simp [List.append_assoc]
    have hdropj : List.drop u1.length (u1 ++ (lit2 ++ (idt ++ (parrLit ++ v1))))
        = lit2 ++ (idt ++ (parrLit ++ v1)) := List.drop_left _ _
    have hm2 : wrapMatch lit2
        (List.drop u1.length (u1 ++ (lit2 ++ (idt ++ (parrLit ++ v1)))))
        = some (wrapRep lit2 idt, lit2.length + idt.length + 2) := by
      rw [hdropj]
      exact wrapMatch_some_of hne hstart hall
    obtain ⟨u2, hu2⟩ := subScan_hits (wrapMatch_consumes lit2) wrapMatch2_noInterior
      _ _ _ _ hm2
    have hwr : wrapRep lit2 idt = "Promise.resolve(".toList
        ++ (cmrLit ++ (midALit ++ (idt ++ (midBLit ++ (idt ++ midCLit))))) := by
      rw [wrapRep, if_neg hcond]
      conv_lhs => rw [lit2_split]
      simp [List.append_assoc]
    refine ⟨u2 ++ "Promise.resolve(".toList,
      subScan (wrapMatch lit2) (List.drop (u1.length + (lit2.length + idt.length + 2))
        (u1 ++ (lit2 ++ (idt ++ (parrLit ++ v1))))), ?_⟩
    simp only [wrapPag]
    rw [hu1, hform, hu2, hwr]
    simp [List.append_assoc]

/-- Witness for C6: a Promise.resolve(createMockResponse(items)) site. -/
theorem C6_envelope_witness :
    (∃ u v, wrapPag ([] ++ (lit2 ++ ("items".toList ++ (parrLit ++ []))))
        = u ++ ((cmrLit ++ (midALit ++ ("items".toList ++ (midBLit
          ++ ("items".toList ++ midCLit))))) ++ v)) ∧
    wrapPag (wrapPag ([] ++ (lit2 ++ ("items".toList ++ (parrLit ++ [])))))
      = wrapPag ([] ++ (lit2 ++ ("items".toList ++ (parrLit ++ [])))) :=
  C6_envelope lit2 [] "items".toList [] _ (Or.inr rfl) rfl (by decide) (by decide)
    (by decide) (by decide) (by decide)

end Emf
